import Mathlib

/-!
Shallow embedding of the permission-aware contract access and audit core of
the ZE-Dashboard backend (`src/backend`), together with theorems checking the
natural-language specification against it.

The relational tables of `models.py` are embedded as Lean lists of structure
rows inside a `DB` record; endpoint handlers from `main.py` become pure
functions from their request parameters and a `DB` to an `Except`-wrapped
result; `session.exec(select(...)).first()` becomes `List.find?`,
`session.commit()` becomes producing the next persisted `DB` state.
Python floats holding monetary values are embedded as `Rat`, `datetime`
values as a calendar-day number paired with a second-of-day.
-/

namespace ZED

/-- Embedding of a Python `datetime`: an absolute calendar day number plus a
second-of-day.  `.date()` in the source corresponds to the `day` field. -/
structure PyDateTime where
  day : Int
  sec : Nat
deriving DecidableEq, Repr

/-- `d1 <= d2` on datetimes, lexicographic on (day, sec). -/
def PyDateTime.le (d1 d2 : PyDateTime) : Bool :=
  d1.day < d2.day || (d1.day == d2.day && d1.sec ≤ d2.sec)

/-- Row of the `user` table (`models.py`, class `User`). -/
structure User where
  id : Nat
  username : String
  hashed_password : String
  role : String
  totp_secret : Option String
  is_active : Bool
  created_at : Nat
deriving DecidableEq, Repr

/-- Row of the `tag` table (`models.py`, class `Tag`). -/
structure Tag where
  id : Nat
  name : String
  color : String
deriving DecidableEq, Repr

/-- Row of the `contract` table (`models.py`, class `Contract`). -/
structure Contract where
  id : Nat
  title : String
  description : Option String
  start_date : PyDateTime
  end_date : PyDateTime
  file_path : String
  uploaded_at : Nat
  notice_period : Int
  value : Rat
  version : Nat
  parent_id : Option Nat
deriving DecidableEq, Repr

/-- Row of the `contractpermission` table (`models.py`, class
`ContractPermission`). -/
structure ContractPermission where
  id : Nat
  user_id : Nat
  contract_id : Nat
  permission_level : String
deriving DecidableEq, Repr

/-- Row of the `contracttaglink` join table (`models.py`). -/
structure ContractTagLink where
  contract_id : Nat
  tag_id : Nat
deriving DecidableEq, Repr

/-- Row of the `contractlistlink` join table (`models.py`). -/
structure ContractListLink where
  contract_id : Nat
  list_id : Nat
deriving DecidableEq, Repr

/-- Row of the `auditlog` table (`models.py`, class `AuditLog`). -/
structure AuditLog where
  id : Nat
  user_id : Option Nat
  action : String
  details : String
  timestamp : Nat
  ip_address : Option String
  user_agent : Option String
deriving DecidableEq, Repr

/-- The persisted state of the Entity Store: one list per table, plus fresh-id
counters standing for the autoincrement primary keys. -/
structure DB where
  users : List User
  contracts : List Contract
  tags : List Tag
  tagLinks : List ContractTagLink
  listLinks : List ContractListLink
  permissions : List ContractPermission
  auditLogs : List AuditLog
  nextUserId : Nat
  nextContractId : Nat
  nextTagId : Nat
  nextPermId : Nat
  nextAuditId : Nat
deriving DecidableEq, Repr

/-- Error outcomes surfaced by the endpoints (`HTTPException` status codes). -/
inductive ApiError where
  | notFound (detail : String)
  | forbidden (detail : String)
  | badRequest (detail : String)
  | validationError (detail : String)
  | payloadTooLarge (detail : String)
deriving DecidableEq, Repr

/-! ## Permission Evaluator (`main.py`, `check_contract_permission`) -/

/-- The `level_hierarchy` dict of `check_contract_permission` read through
`dict.get(key, 0)`: `{"read": 1, "write": 2, "full": 3}`, default `0`. -/
def level_hierarchy_get (level : String) : Nat :=
  if level == "read" then 1
  else if level == "write" then 2
  else if level == "full" then 3
  else 0

/-- `check_contract_permission(user, contract_id, required_level, session)`
from `main.py` lines 720-741.  The session's permission table is passed as the
`perms` list; `.first()` on the filtered select becomes `List.find?`. -/
def check_contract_permission (user : User) (contract_id : Nat)
    (required_level : String) (perms : List ContractPermission) : Bool :=
  if user.role == "admin" then
    true
  else
    match perms.find? (fun p =>
        p.user_id == user.id && p.contract_id == contract_id) with
    | none => true
    | some permission =>
        level_hierarchy_get permission.permission_level ≥
          level_hierarchy_get required_level

/-! ## Audit Recorder (`security_utils.py`, `log_audit`) -/

/-- `log_audit(session, user_id, action, details, ip_address, user_agent)`
from `security_utils.py` lines 9-19: builds an `AuditLog` row with
`timestamp=datetime.utcnow()` (the `now` parameter), adds it and commits.
This is its own transaction: the returned `DB` is a persisted state. -/
def log_audit (db : DB) (user_id : Option Nat) (action details : String)
    (ip_address user_agent : Option String) (now : Nat) : DB :=
  { db with
    auditLogs := db.auditLogs ++
      [⟨db.nextAuditId, user_id, action, details, now, ip_address, user_agent⟩],
    nextAuditId := db.nextAuditId + 1 }

/-! ## Permission management (`main.py`, `create_permission`) -/

/-- Body of the `PermissionCreate` request (`schemas.py` lines 122-125). -/
structure PermissionCreate where
  user_id : Nat
  contract_id : Nat
  permission_level : String
deriving DecidableEq, Repr

/-- The `pattern="^(read|write|full)$"` validation on
`PermissionCreate.permission_level` (`schemas.py` line 125). -/
def permissionLevelPatternOk (s : String) : Bool :=
  s == "read" || s == "write" || s == "full"

/-- Replace the first element satisfying `pred` by its image under `f`,
leaving the rest unchanged: the embedding of fetching a row with `.first()`
and mutating it in place. -/
def updateFirstWhere (pred : α → Bool) (f : α → α) : List α → List α
  | [] => []
  | x :: xs => if pred x then f x :: xs else x :: updateFirstWhere pred f xs

/-- `create_permission` from `main.py` lines 940-1004 (the handler body; the
`require_admin` dependency is the leading role check).  Validates that the
user and contract exist, then upserts: if a row for the
`(user_id, contract_id)` pair exists its `permission_level` is overwritten in
place, otherwise a fresh row is inserted; either way one audit entry is
recorded. -/
def create_permission (d : PermissionCreate) (admin : User)
    (ip ua : Option String) (now : Nat) (db : DB) : Except ApiError DB :=
  if admin.role != "admin" then
    .error (.forbidden "Admin access required")
  else
    match db.users.find? (fun u => u.id == d.user_id) with
    | none => .error (.notFound "User not found")
    | some user =>
      match db.contracts.find? (fun c => c.id == d.contract_id) with
      | none => .error (.notFound "Contract not found")
      | some contract =>
        match db.permissions.find? (fun p =>
            p.user_id == d.user_id && p.contract_id == d.contract_id) with
        | some _ =>
          let db1 := { db with
            permissions := updateFirstWhere
              (fun p => p.user_id == d.user_id && p.contract_id == d.contract_id)
              (fun p => { p with permission_level := d.permission_level })
              db.permissions }
          .ok (log_audit db1 (some admin.id) "UPDATE_PERMISSION"
            ("Updated permission for '" ++ user.username ++ "' on contract '"
              ++ contract.title ++ "' to '" ++ d.permission_level ++ "'")
            ip ua now)
        | none =>
          let db1 := { db with
            permissions := db.permissions ++
              [⟨db.nextPermId, d.user_id, d.contract_id, d.permission_level⟩],
            nextPermId := db.nextPermId + 1 }
          .ok (log_audit db1 (some admin.id) "CREATE_PERMISSION"
            ("Granted '" ++ d.permission_level ++ "' permission to '"
              ++ user.username ++ "' for contract '" ++ contract.title ++ "'")
            ip ua now)

/-- The Entity Store invariant of §3: at most one `ContractPermission` row per
`(user_id, contract_id)` pair, phrased as: the list of pairs carried by the
table has no duplicate. -/
def pairUnique (perms : List ContractPermission) : Prop :=
  (perms.map (fun p => (p.user_id, p.contract_id))).Nodup

instance (perms : List ContractPermission) : Decidable (pairUnique perms) :=
  inferInstanceAs (Decidable (List.Nodup _))

/-! ## List and string helpers (embedding SQL `ORDER BY` and `LIKE`) -/

/-- Insert `x` into `l` before the first element `y` with `le x y` false. -/
def insertSorted (le : α → α → Bool) (x : α) : List α → List α
  | [] => [x]
  | y :: ys => if le x y then x :: y :: ys else y :: insertSorted le x ys

/-- Insertion sort by a boolean comparison: the embedding of `ORDER BY`. -/
def sortByRel (le : α → α → Bool) : List α → List α
  | [] => []
  | x :: xs => insertSorted le x (sortByRel le xs)

/-- Does the first character list start with the second? -/
def charsHaveInit : List Char → List Char → Bool
  | _, [] => true
  | [], _ :: _ => false
  | a :: as, b :: bs => a == b && charsHaveInit as bs

/-- Does the first character list contain the second as a contiguous run? -/
def charsHaveSub : List Char → List Char → Bool
  | [], pat => charsHaveInit [] pat
  | c :: rest, pat => charsHaveInit (c :: rest) pat || charsHaveSub rest pat

/-- Substring containment on strings: the embedding of SQL
`column LIKE '%pat%'` and of Python's `in` on strings. -/
def strContains (s pat : String) : Bool :=
  charsHaveSub s.data pat.data

/-- Case-insensitive substring containment: the embedding of `ilike`. -/
def strContainsCI (s pat : String) : Bool :=
  charsHaveSub (s.data.map Char.toLower) (pat.data.map Char.toLower)

/-- Split a character list at commas (Python's `s.split(",")`, with the
accumulator carried reversed). -/
def splitCommaAux : List Char → List Char → List (List Char)
  | [], acc => [acc.reverse]
  | c :: rest, acc =>
    if c == ',' then acc.reverse :: splitCommaAux rest []
    else splitCommaAux rest (c :: acc)

/-- Python's `str.strip()` on a character list. -/
def trimChars (cs : List Char) : List Char :=
  ((cs.dropWhile Char.isWhitespace).reverse.dropWhile Char.isWhitespace).reverse

/-- Python's `str.lower()`. -/
def strToLower (s : String) : String :=
  String.mk (s.data.map Char.toLower)

/-- `[t.strip() for t in s.split(",") if t.strip()]`: split a comma-separated
string, trim each token, drop empties (used for the `tags` form fields). -/
def splitTags (s : String) : List String :=
  (((splitCommaAux s.data []).map (fun cs => String.mk (trimChars cs))).filter
    (fun t => t != ""))

/-! ## Audit read surface (`main.py`, `get_audit_logs` and
`get_contract_audit_logs`) -/

/-- One element of the response list of the audit read endpoints: the log row
plus the acting user's display name resolved at read time. -/
structure AuditLogView where
  log : AuditLog
  username : String
deriving DecidableEq, Repr

/-- The `user.username if user else "Unknown"` resolution over the
`join(User, isouter=True)` of both audit readers. -/
def resolveUsername (users : List User) (uid : Option Nat) : String :=
  match uid with
  | none => "Unknown"
  | some i =>
    match users.find? (fun u => u.id == i) with
    | none => "Unknown"
    | some u => u.username

/-- `ORDER BY timestamp DESC` comparison on audit rows. -/
def auditDesc (a b : AuditLog) : Bool :=
  b.timestamp ≤ a.timestamp

/-- `get_audit_logs` from `main.py` lines 685-695: admin-only; the newest 100
entries ordered by timestamp descending, usernames resolved at read time. -/
def get_audit_logs (current_user : User) (db : DB) :
    Except ApiError (List AuditLogView) :=
  if current_user.role != "admin" then
    .error (.forbidden "Admin access required")
  else
    .ok (((sortByRel auditDesc db.auditLogs).take 100).map
      (fun l => ⟨l, resolveUsername db.users l.user_id⟩))

/-- `get_contract_audit_logs` from `main.py` lines 697-711: filters by the
`LIKE '%[CID:{contract_id}]%'` marker pattern and orders by timestamp
descending.  The handler takes the authenticated `current_user` but performs
no role or permission check on it. -/
def get_contract_audit_logs (contract_id : Nat) (current_user : User)
    (db : DB) : Except ApiError (List AuditLogView) :=
  .ok ((sortByRel auditDesc (db.auditLogs.filter (fun l =>
      strContains l.details ("[CID:" ++ toString contract_id ++ "]")))).map
    (fun l => ⟨l, resolveUsername db.users l.user_id⟩))

/-! ## Contract deletion (`main.py`, `delete_contract`) -/

/-- `delete_contract` from `main.py` lines 562-585.  `fileOnDisk` embeds
`os.path.exists(contract.file_path)` and `storageOk` whether `os.remove`
succeeds; a storage failure is printed and swallowed, so neither affects the
store mutation.  `session.delete(contract)` removes the row and, through the
many-to-many relationships, the contract's tag-link and list-link rows.  The
handler records no audit entry. -/
def delete_contract (contract_id : Nat) (current_user : User)
    (fileOnDisk storageOk : Bool) (db : DB) : Except ApiError DB :=
  match db.contracts.find? (fun c => c.id == contract_id) with
  | none => .error (.notFound "Contract not found")
  | some _ =>
    if !check_contract_permission current_user contract_id "full"
        db.permissions then
      .error (.forbidden "You don't have permission to delete this contract")
    else
      .ok { db with
        contracts := db.contracts.filter (fun c => !(c.id == contract_id)),
        tagLinks := db.tagLinks.filter (fun l =>
          !(l.contract_id == contract_id)),
        listLinks := db.listLinks.filter (fun l =>
          !(l.contract_id == contract_id)) }

/-! ## Contract Query Engine (`main.py`, `read_contracts`) -/

/-- The optional query parameters of `GET /contracts`
(`main.py` lines 236-246). -/
structure ContractQuery where
  q : Option String
  tags : Option String
  list_id : Option Nat
  min_value : Option Rat
  max_value : Option Rat
  start_date_from : Option PyDateTime
  start_date_to : Option PyDateTime
  status : Option String
  sort_by : Option String
  sort_order : Option String
deriving Repr

/-- The `sort_columns` dictionary with its `uploaded_at` fallback: `a <= b`
under the selected sort key. -/
def contractSortLe (sort_by : Option String) (a b : Contract) : Bool :=
  match sort_by with
  | some "title" => a.title ≤ b.title
  | some "value" => a.value ≤ b.value
  | some "start_date" => PyDateTime.le a.start_date b.start_date
  | some "end_date" => PyDateTime.le a.end_date b.end_date
  | _ => a.uploaded_at ≤ b.uploaded_at

/-- `read_contracts` from `main.py` lines 235-315: the conjunctive filter
chain (`WHERE` clauses become `List.filter`, the tag/list joins become
existential checks over the link tables with the final `DISTINCT` as
`dedup`), the status comparison against `datetime.utcnow()` (`now`), and the
`ORDER BY` (`sortByRel`, flipped comparison for the default `desc`).  The
handler receives the authenticated `current_user`, and the store carries the
`permissions` table, but — by the documented default-visibility policy — the
query touches neither. -/
def read_contracts (f : ContractQuery) (now : PyDateTime)
    (current_user : User) (db : DB) : List Contract :=
  let s0 : List Contract := db.contracts
  let s1 : List Contract := match f.q with
    | some q =>
      if q != "" then
        s0.filter (fun c => strContainsCI c.title q ||
          (match c.description with
            | some d => strContainsCI d q
            | none => false))
      else s0
    | none => s0
  let s2 : List Contract := match f.tags with
    | some ts =>
      if ts != "" then
        let tag_list := splitTags ts
        if tag_list != [] then
          s1.filter (fun c => db.tagLinks.any (fun l =>
            l.contract_id == c.id && db.tags.any (fun t =>
              t.id == l.tag_id && tag_list.contains t.name)))
        else s1
      else s1
    | none => s1
  let s3 : List Contract := match f.list_id with
    | some lid => s2.filter (fun c => db.listLinks.any (fun l =>
        l.contract_id == c.id && l.list_id == lid))
    | none => s2
  let s4 : List Contract := match f.min_value with
    | some v => s3.filter (fun c => v ≤ c.value)
    | none => s3
  let s5 : List Contract := match f.max_value with
    | some v => s4.filter (fun c => c.value ≤ v)
    | none => s4
  let s6 : List Contract := match f.start_date_from with
    | some d => s5.filter (fun c => PyDateTime.le d c.start_date)
    | none => s5
  let s7 : List Contract := match f.start_date_to with
    | some d => s6.filter (fun c => PyDateTime.le c.start_date d)
    | none => s6
  let s8 :=
    if f.status == some "active" then
      s7.filter (fun c => PyDateTime.le now c.end_date)
    else if f.status == some "expired" then
      s7.filter (fun c => !PyDateTime.le now c.end_date)
    else s7
  let le := contractSortLe f.sort_by
  if f.sort_order == some "asc" then
    sortByRel le s8.dedup
  else
    sortByRel (fun a b => le b a) s8.dedup

/-! ## User management (`schemas.py` and `main.py` admin endpoints) -/

/-- The external password hasher (`auth.get_password_hash`), a collaborator
outside this core (§6): embedded as an opaque injective tagging. -/
def get_password_hash (p : String) : String :=
  "hashed:" ++ p

/-- `re.match(r'^[a-zA-Z0-9_-]+$', v)` of the `UserCreate.username_pattern`
validator (`schemas.py` lines 17-22).  Python's `$` also matches just before
one trailing newline at the end of the string, so a username made of allowed
characters followed by a single `'\n'` passes this validator. -/
def usernamePatternOk (s : String) : Bool :=
  let cs := if s.data.getLast? == some '\n' then s.data.dropLast else s.data
  !cs.isEmpty && cs.all (fun c => c.isAlphanum || c == '_' || c == '-')

/-- The username character invariant as the data model states it: at least
one character, every character drawn from `[A-Za-z0-9_-]` — with no newline
allowance.  Kept separate from `usernamePatternOk`, the validator the code
actually runs, to compare the two. -/
def usernamePatternSpec (s : String) : Bool :=
  !s.data.isEmpty && s.data.all (fun c => c.isAlphanum || c == '_' || c == '-')

/-- Body of `POST /admin/users` (`schemas.py`, class `UserCreate`). -/
structure UserCreate where
  username : String
  password : String
deriving DecidableEq, Repr

/-- The full `UserCreate` validation: length bounds on both fields plus the
username character pattern. -/
def userCreateValid (d : UserCreate) : Bool :=
  3 ≤ d.username.length && d.username.length ≤ 32 &&
  8 ≤ d.password.length && d.password.length ≤ 128 &&
  usernamePatternOk d.username

/-- Body of `PUT /admin/users/{id}` (`schemas.py`, class `UserUpdate`):
every field optional; the username carries the length bounds only — the
class declares no character-pattern validator. -/
structure UserUpdate where
  username : Option String
  password : Option String
  role : Option String
  is_active : Option Bool
deriving DecidableEq, Repr

/-- The `UserUpdate` validation as declared in `schemas.py` lines 115-119:
length bounds on the supplied fields, no username pattern check. -/
def userUpdateValid (d : UserUpdate) : Bool :=
  (match d.username with
    | some u => 3 ≤ u.length && u.length ≤ 32
    | none => true) &&
  (match d.password with
    | some p => 8 ≤ p.length && p.length ≤ 128
    | none => true)

/-- `create_user` from `main.py` lines 778-811, composed with the framework's
request-body validation against `UserCreate` (a request failing it never
reaches the handler): admin gate, uniqueness check, insert of a fresh
`role="user"` active row, one `CREATE_USER` audit entry. -/
def create_user (d : UserCreate) (admin : User) (ip ua : Option String)
    (now : Nat) (db : DB) : Except ApiError DB :=
  if !userCreateValid d then
    .error (.validationError "Invalid request body")
  else if admin.role != "admin" then
    .error (.forbidden "Admin access required")
  else if (db.users.find? (fun u => u.username == d.username)).isSome then
    .error (.badRequest "Username already exists")
  else
    let new_user : User :=
      ⟨db.nextUserId, d.username, get_password_hash d.password, "user", none,
        true, now⟩
    .ok (log_audit
      { db with
        users := db.users ++ [new_user],
        nextUserId := db.nextUserId + 1 }
      (some admin.id) "CREATE_USER" ("Created user '" ++ d.username ++ "'")
      ip ua now)

/-- Python's `str()` rendering of a boolean, used in the `is_active` change
note. -/
def pyBool (b : Bool) : String :=
  if b then "True" else "False"

/-- The four sequential field mutations of `update_user` (`main.py` lines
827-850) applied to the fetched row, returning the mutated row and the
`changes` notes in order; the two failing checks (username conflict, bad
role string) are handled by the caller before anything is committed. -/
def applyUserUpdate (user : User) (d : UserUpdate) : User × List String :=
  let st1 := match d.username with
    | some nu =>
      if nu != user.username then
        ({ user with username := nu },
          ["username: '" ++ user.username ++ "' -> '" ++ nu ++ "'"])
      else (user, [])
    | none => (user, [])
  let st2 := match d.password with
    | some p =>
      ({ st1.1 with hashed_password := get_password_hash p },
        st1.2 ++ ["password: updated"])
    | none => st1
  let st3 := match d.role with
    | some r =>
      if r != st2.1.role then
        ({ st2.1 with role := r },
          st2.2 ++ ["role: '" ++ st2.1.role ++ "' -> '" ++ r ++ "'"])
      else st2
    | none => st2
  match d.is_active with
  | some b =>
    if b != st3.1.is_active then
      ({ st3.1 with is_active := b },
        st3.2 ++ ["is_active: " ++ pyBool st3.1.is_active ++ " -> "
          ++ pyBool b])
    else st3
  | none => st3

/-- `update_user` from `main.py` lines 814-856, composed with the framework's
validation against `UserUpdate`.  An error raised anywhere in the handler
aborts the request before the commit, so the failing checks (rename
conflict; a role string other than `admin`/`user`) are evaluated up front in
their source order; with no effective change nothing is committed and no
audit entry is recorded. -/
def update_user (uid : Nat) (d : UserUpdate) (admin : User)
    (ip ua : Option String) (now : Nat) (db : DB) : Except ApiError DB :=
  if !userUpdateValid d then
    .error (.validationError "Invalid request body")
  else if admin.role != "admin" then
    .error (.forbidden "Admin access required")
  else
    match db.users.find? (fun u => u.id == uid) with
    | none => .error (.notFound "User not found")
    | some user =>
      let renameConflict : Bool := match d.username with
        | some nu => nu != user.username &&
            (db.users.find? (fun x => x.username == nu)).isSome
        | none => false
      let roleInvalid : Bool := match d.role with
        | some r => r != user.role && !(r == "admin" || r == "user")
        | none => false
      if renameConflict then
        .error (.badRequest "Username already exists")
      else if roleInvalid then
        .error (.badRequest "Role must be admin or user")
      else
        let st := applyUserUpdate user d
        if st.2.isEmpty then
          .ok db
        else
          .ok (log_audit
            { db with
              users := updateFirstWhere (fun u => u.id == uid)
                (fun _ => st.1) db.users }
            (some admin.id) "UPDATE_USER"
            ("Updated user '" ++ st.1.username ++ "': "
              ++ String.intercalate "; " st.2)
            ip ua now)

/-! ## Contract creation (`main.py`, `create_contract`) -/

/-- The parts of an `UploadFile` this core looks at: its byte size, the MIME
type sniffed from its header, and the extension of the client filename. -/
structure FileUpload where
  size : Nat
  mimeType : String
  extension : String
deriving DecidableEq, Repr

/-- The `value: float = Field(default=0.0, ge=0)` constraint declared on
`ContractCreate` (`schemas.py` line 56): the repository's validation contract
for a contract's monetary value.  The upload and update endpoints take raw
`Form` fields and never apply this schema. -/
def contractCreateValueOk (v : Rat) : Bool :=
  0 ≤ v

/-- The find-or-create loop over the parsed tag names of `create_contract`
(`main.py` lines 376-390).  Returns the resolved tag ids in order, the store
after the loop, and the list of intermediate persisted states: each newly
created `Tag` row is committed on its own (`session.commit()` at line 388)
before the contract itself is committed. -/
def createTagsLoop : List String → DB → (List Nat × DB × List DB)
  | [], db => ([], db, [])
  | n :: rest, db =>
    match db.tags.find? (fun t => t.name == n) with
    | some t =>
      let r := createTagsLoop rest db
      (t.id :: r.1, r.2.1, r.2.2)
    | none =>
      let newTag : Tag := ⟨db.nextTagId, n, "#3b82f6"⟩
      let db1 := { db with
        tags := db.tags ++ [newTag],
        nextTagId := db.nextTagId + 1 }
      let r := createTagsLoop rest db1
      (db.nextTagId :: r.1, r.2.1, db1 :: r.2.2)

/-- `create_contract` from `main.py` lines 317-397: file size, MIME and
extension validation, blob save under a fresh name (`uuidName` embeds the
generated uuid), tag find-or-create (with its per-tag commits), then the
contract row with its tag links committed at line 393, then the `UPLOAD`
audit entry committed by `log_audit`.  The result is the ordered list of
persisted states, one per `session.commit()`; the last one is the final
state.  The handler applies no constraint to `value` or `notice_period`. -/
def create_contract (title : String) (start_date end_date : PyDateTime)
    (value : Rat) (notice_period : Int) (file : FileUpload)
    (description : Option String) (tags : String) (uuidName : String)
    (current_user : User) (ip ua : Option String) (now : Nat) (db : DB) :
    Except ApiError (List DB) :=
  if file.size > 10 * 1024 * 1024 then
    .error (.payloadTooLarge "File too large (Max 10MB)")
  else if !(["application/pdf", "image/png", "image/jpeg",
      "text/plain"].contains file.mimeType) then
    .error (.badRequest "Unsupported file type")
  else if !([".pdf", ".png", ".jpg", ".jpeg",
      ".txt"].contains (strToLower file.extension)) then
    .error (.badRequest "Invalid file extension")
  else
    let file_path := "uploads/" ++ uuidName ++ file.extension
    let r := createTagsLoop (splitTags tags) db
    let db1 := r.2.1
    let cid := db1.nextContractId
    let contract : Contract :=
      ⟨cid, title, description, start_date, end_date, file_path, now,
        notice_period, value, 1, none⟩
    let db2 := { db1 with
      contracts := db1.contracts ++ [contract],
      tagLinks := db1.tagLinks ++ r.1.map (fun tid => ⟨cid, tid⟩),
      nextContractId := cid + 1 }
    let db3 := log_audit db2 (some current_user.id) "UPLOAD"
      ("[CID:" ++ toString cid ++ "] Uploaded contract " ++ title) ip ua now
    .ok (r.2.2 ++ [db2, db3])

/-- The final persisted state of `create_contract`: the last committed
state. -/
def create_contract_final (title : String) (start_date end_date : PyDateTime)
    (value : Rat) (notice_period : Int) (file : FileUpload)
    (description : Option String) (tags : String) (uuidName : String)
    (current_user : User) (ip ua : Option String) (now : Nat) (db : DB) :
    Except ApiError DB :=
  (create_contract title start_date end_date value notice_period file
    description tags uuidName current_user ip ua now db).map
    (fun states => states.getLastD db)

/-- The states an interrupted execution can leave behind: the initial state
(crash before the first commit) or the state after any one of the commits. -/
def crashStates (db : DB) (states : List DB) : List DB :=
  db :: states

/-! ## Contract update (`main.py`, `update_contract`) -/

/-- The optional form fields of `PUT /contracts/{id}`
(`main.py` lines 440-446), the file part kept separate. -/
structure ContractUpdateForm where
  title : Option String
  description : Option String
  start_date : Option PyDateTime
  end_date : Option PyDateTime
  value : Option Rat
  notice_period : Option Int
  tags : Option String
deriving DecidableEq, Repr

/-- Python's f-string rendering of an `Optional[str]`: `None` prints as
`None`. -/
def optStr : Option String → String
  | none => "None"
  | some s => s

/-- Python `set(l1) == set(l2)` on string lists. -/
def listSetEq (l1 l2 : List String) : Bool :=
  l1.all (fun x => l2.contains x) && l2.all (fun x => l1.contains x)

/-- `[t.name for t in contract.tags]`: the names of the contract's linked
tags, in link order (a dangling link renders as the empty name; reachable
stores have none). -/
def contractTagNames (db : DB) (cid : Nat) : List String :=
  (db.tagLinks.filter (fun l => l.contract_id == cid)).map (fun l =>
    match db.tags.find? (fun t => t.id == l.tag_id) with
    | some t => t.name
    | none => "")

/-- The find-or-create-and-append loop of the tag replacement
(`main.py` lines 536-543). -/
def addTagsLoop (cid : Nat) : List String → DB → DB
  | [], db => db
  | nm :: rest, db =>
    match db.tags.find? (fun t => t.name == nm) with
    | some t =>
      addTagsLoop cid rest
        { db with tagLinks := db.tagLinks ++ [⟨cid, t.id⟩] }
    | none =>
      addTagsLoop cid rest
        { db with
          tags := db.tags ++ [⟨db.nextTagId, nm, "#3b82f6"⟩],
          nextTagId := db.nextTagId + 1,
          tagLinks := db.tagLinks ++ [⟨cid, db.nextTagId⟩] }

/-- `contract.tags = []` followed by the find-or-create-append loop: full
replace-set semantics for a contract's tag links. -/
def replaceContractTags (cid : Nat) (names : List String) (db : DB) : DB :=
  addTagsLoop cid names
    { db with tagLinks := db.tagLinks.filter (fun l =>
        !(l.contract_id == cid)) }

/-- `check_and_update("title", title)` (`main.py` lines 462-478) acting on
the (contract, changes) accumulator. -/
def stepTitle (form : ContractUpdateForm) (st : Contract × List String) :
    Contract × List String :=
  match form.title with
  | some t =>
    if st.1.title != t then
      ({ st.1 with title := t },
        st.2 ++ ["title: '" ++ st.1.title ++ "' -> '" ++ t ++ "'"])
    else st
  | none => st

/-- `check_and_update("description", description)`: the stored value is
optional, a supplied value always compares against it (Python `None != s` is
true). -/
def stepDescription (form : ContractUpdateForm)
    (st : Contract × List String) : Contract × List String :=
  match form.description with
  | some d =>
    if st.1.description != some d then
      ({ st.1 with description := some d },
        st.2 ++ ["description: '" ++ optStr st.1.description ++ "' -> '"
          ++ d ++ "'"])
    else st
  | none => st

/-- `check_and_update("start_date", start_date)`: dates compare by calendar
date only (`v1.date() != v2.date()`); on a difference the full datetime is
stored and the note renders the two dates. -/
def stepStart (form : ContractUpdateForm) (st : Contract × List String) :
    Contract × List String :=
  match form.start_date with
  | some sd =>
    if st.1.start_date.day != sd.day then
      ({ st.1 with start_date := sd },
        st.2 ++ ["start_date: '" ++ toString st.1.start_date.day ++ "' -> '"
          ++ toString sd.day ++ "'"])
    else st
  | none => st

/-- `check_and_update("end_date", end_date)`, calendar-date comparison. -/
def stepEnd (form : ContractUpdateForm) (st : Contract × List String) :
    Contract × List String :=
  match form.end_date with
  | some ed =>
    if st.1.end_date.day != ed.day then
      ({ st.1 with end_date := ed },
        st.2 ++ ["end_date: '" ++ toString st.1.end_date.day ++ "' -> '"
          ++ toString ed.day ++ "'"])
    else st
  | none => st

/-- `check_and_update("value", value)`. -/
def stepValue (form : ContractUpdateForm) (st : Contract × List String) :
    Contract × List String :=
  match form.value with
  | some v =>
    if st.1.value != v then
      ({ st.1 with value := v },
        st.2 ++ ["value: '" ++ toString st.1.value ++ "' -> '"
          ++ toString v ++ "'"])
    else st
  | none => st

/-- `check_and_update("notice_period", notice_period)`. -/
def stepNotice (form : ContractUpdateForm) (st : Contract × List String) :
    Contract × List String :=
  match form.notice_period with
  | some np =>
    if st.1.notice_period != np then
      ({ st.1 with notice_period := np },
        st.2 ++ ["notice_period: '" ++ toString st.1.notice_period
          ++ "' -> '" ++ toString np ++ "'"])
    else st
  | none => st

/-- The six `check_and_update` calls in source order. -/
def fieldSteps (contract : Contract) (form : ContractUpdateForm) :
    Contract × List String :=
  stepNotice form (stepValue form (stepEnd form (stepStart form
    (stepDescription form (stepTitle form (contract, []))))))

/-- The commit phase of `update_contract` after all failing checks: apply the
field steps, the optional file swap, the tag replace-set diff; commit the
mutated row and record one `UPDATE_CONTRACT` audit entry only when at least
one change note was produced — otherwise the store is returned untouched. -/
def update_contract_commit (cid : Nat) (form : ContractUpdateForm)
    (file : Option FileUpload) (uuidName : String) (user : User)
    (ip ua : Option String) (now : Nat) (db : DB) (contract : Contract) :
    DB :=
  let st := fieldSteps contract form
  let st2 : Contract × List String := match file with
    | some f =>
      ({ st.1 with file_path := "uploads/" ++ uuidName ++ f.extension },
        st.2 ++ ["file: updated"])
    | none => st
  let tg : DB × List String := match form.tags with
    | some ts =>
      let old_tags := contractTagNames db cid
      let new_tags := splitTags ts
      if !listSetEq old_tags new_tags then
        (replaceContractTags cid new_tags db,
          st2.2 ++ ["tags: " ++ toString old_tags ++ " -> "
            ++ toString new_tags])
      else (db, st2.2)
    | none => (db, st2.2)
  if tg.2.isEmpty then db
  else
    log_audit
      { tg.1 with
        contracts := updateFirstWhere (fun c => c.id == cid)
          (fun _ => st2.1) tg.1.contracts }
      (some user.id) "UPDATE_CONTRACT"
      ("[CID:" ++ toString cid ++ "] Updated Contract. Changes: "
        ++ String.intercalate "; " tg.2)
      ip ua now

/-- `update_contract` from `main.py` lines 436-560: fetch, `write`-level
permission check, replacement-file validation (size and MIME; an error raised
there aborts the request before anything is committed, so the checks are
evaluated up front), then the pure commit phase. -/
def update_contract (cid : Nat) (form : ContractUpdateForm)
    (file : Option FileUpload) (uuidName : String) (user : User)
    (ip ua : Option String) (now : Nat) (db : DB) : Except ApiError DB :=
  match db.contracts.find? (fun c => c.id == cid) with
  | none => .error (.notFound "Contract not found")
  | some contract =>
    if !check_contract_permission user cid "write" db.permissions then
      .error (.forbidden "You don't have permission to edit this contract")
    else
      match file with
      | some f =>
        if f.size > 10 * 1024 * 1024 then
          .error (.payloadTooLarge "File too large (Max 10MB)")
        else if !(["application/pdf", "image/png", "image/jpeg",
            "text/plain"].contains f.mimeType) then
          .error (.badRequest "Unsupported file type")
        else
          .ok (update_contract_commit cid form (some f) uuidName user ip ua
            now db contract)
      | none =>
        .ok (update_contract_commit cid form none uuidName user ip ua now db
          contract)

/-- The store after the tag replace-set step of an update: replaced when the
supplied set differs from the linked set, untouched otherwise. -/
def tagDB (form : ContractUpdateForm) (db : DB) (cid : Nat) : DB :=
  match form.tags with
  | some ts =>
    if !listSetEq (contractTagNames db cid) (splitTags ts) then
      replaceContractTags cid (splitTags ts) db
    else db
  | none => db

/-- The contract row as mutated by the field steps and the optional file
swap. -/
def finalContract (form : ContractUpdateForm) (file : Option FileUpload)
    (uuidName : String) (c : Contract) : Contract :=
  match file with
  | some f =>
    { (fieldSteps c form).1 with
      file_path := "uploads/" ++ uuidName ++ f.extension }
  | none => (fieldSteps c form).1

/-- The claim's change condition, written field by field: some supplied field
differs from the stored value — dates compared by calendar date only, tags by
set equality, a supplied file always counting as a change. -/
def updateFormDiffers (form : ContractUpdateForm) (file : Option FileUpload)
    (c : Contract) (db : DB) (cid : Nat) : Bool :=
  (match form.title with
    | some t => c.title != t
    | none => false) ||
  (match form.description with
    | some d => c.description != some d
    | none => false) ||
  (match form.start_date with
    | some sd => c.start_date.day != sd.day
    | none => false) ||
  (match form.end_date with
    | some ed => c.end_date.day != ed.day
    | none => false) ||
  (match form.value with
    | some v => c.value != v
    | none => false) ||
  (match form.notice_period with
    | some np => c.notice_period != np
    | none => false) ||
  file.isSome ||
  (match form.tags with
    | some ts => !listSetEq (contractTagNames db cid) (splitTags ts)
    | none => false)

/-- The change notes `update_contract` produces, in source order. -/
def updateChangeNotes (form : ContractUpdateForm) (file : Option FileUpload)
    (c : Contract) (db : DB) (cid : Nat) : List String :=
  (fieldSteps c form).2 ++
  (match file with
    | some _ => ["file: updated"]
    | none => []) ++
  (match form.tags with
    | some ts =>
      if !listSetEq (contractTagNames db cid) (splitTags ts) then
        ["tags: " ++ toString (contractTagNames db cid) ++ " -> "
          ++ toString (splitTags ts)]
      else []
    | none => [])

/-- Well-formedness of the tag table and its links: ids below the
autoincrement counter and pairwise distinct — every state the application
builds satisfies it. -/
def tagsWF (db : DB) : Prop :=
  (∀ t ∈ db.tags, t.id < db.nextTagId) ∧
  (db.tags.map (fun t => t.id)).Nodup ∧
  (∀ l ∈ db.tagLinks, l.tag_id < db.nextTagId)

instance (db : DB) : Decidable (tagsWF db) :=
  inferInstanceAs (Decidable (_ ∧ _ ∧ _))

/-- The intermediate states committed by the tag replace-set loop of
`update_contract` (`main.py` lines 536-543): each brand-new tag name triggers
a `session.commit()` at line 541, and a commit persists every change pending
in the session — by that point the field mutations, the old-link removal and
the links appended so far are pending alongside the new `Tag` row, so each
snapshot carries all of them.  The input store is therefore the
would-be-committed state (fields applied, old links removed); a name
resolving to an existing tag only appends a link, without committing. -/
def updateTagCommitSnapshots (cid : Nat) : List String → DB → List DB
  | [], _ => []
  | nm :: rest, db =>
    match db.tags.find? (fun t => t.name == nm) with
    | some t =>
      updateTagCommitSnapshots cid rest
        { db with tagLinks := db.tagLinks ++ [⟨cid, t.id⟩] }
    | none =>
      let db1 := { db with
        tags := db.tags ++ [⟨db.nextTagId, nm, "#3b82f6"⟩],
        nextTagId := db.nextTagId + 1,
        tagLinks := db.tagLinks ++ [⟨cid, db.nextTagId⟩] }
      db1 :: updateTagCommitSnapshots cid rest db1

/-- The state persisted by the mutation commit of `update_contract`
(`main.py` line 547): the tag replace-set applied and the contract row
replaced by its mutated version. -/
def updateMutationState (cid : Nat) (form : ContractUpdateForm)
    (file : Option FileUpload) (uuidName : String) (contract : Contract)
    (db : DB) : DB :=
  { tagDB form db cid with
    contracts := updateFirstWhere (fun x => x.id == cid)
      (fun _ => finalContract form file uuidName contract)
      (tagDB form db cid).contracts }

/-- The ordered list of states persisted by the `session.commit()` calls of a
successful `update_contract` run on a found contract: empty when no change
note is produced (the handler commits nothing), otherwise the snapshots of
the per-new-tag commits at `main.py` line 541, then the mutation commit at
line 547, then the `UPDATE_CONTRACT` audit entry committed by `log_audit`
(`security_utils.py` line 19).  The last state is the handler's result. -/
def update_contract_commitStates (cid : Nat) (form : ContractUpdateForm)
    (file : Option FileUpload) (uuidName : String) (user : User)
    (ip ua : Option String) (now : Nat) (db : DB) (contract : Contract) :
    List DB :=
  if (updateChangeNotes form file contract db cid).isEmpty then []
  else
    (match form.tags with
      | some ts =>
        if !listSetEq (contractTagNames db cid) (splitTags ts) then
          updateTagCommitSnapshots cid (splitTags ts)
            { db with
              contracts := updateFirstWhere (fun x => x.id == cid)
                (fun _ => finalContract form file uuidName contract)
                db.contracts,
              tagLinks := db.tagLinks.filter (fun l =>
                !(l.contract_id == cid)) }
        else []
      | none => []) ++
    [updateMutationState cid form file uuidName contract db,
      log_audit (updateMutationState cid form file uuidName contract db)
        (some user.id) "UPDATE_CONTRACT"
        ("[CID:" ++ toString cid ++ "] Updated Contract. Changes: "
          ++ String.intercalate "; "
            (updateChangeNotes form file contract db cid))
        ip ua now]

/-! ## Concrete states used by witnesses and counterexamples -/

/-- A sample admin user. -/
def wAdmin : User := User.mk 1 "admin" "h" "admin" none true 0

/-- A sample non-admin user. -/
def wBob : User := User.mk 2 "bob" "h" "user" none true 0

/-- A sample contract row, id 7. -/
def wLease : Contract :=
  Contract.mk 7 "Lease A" none ⟨100, 0⟩ ⟨465, 0⟩ "uploads/a.pdf" 1 30 1200 1 none

/-- A sample store: two users, one contract, a `read` restriction for `wBob`
on contract 7. -/
def wDB : DB :=
  DB.mk [wAdmin, wBob] [wLease] [] [] []
    [ContractPermission.mk 1 2 7 "read"] [] 3 8 1 2 1

/-- A sample audit row: the upload of contract 7. -/
def wAudit1 : AuditLog :=
  ⟨1, some 1, "UPLOAD", "[CID:7] Uploaded contract Lease A", 5, none, none⟩

/-- A sample audit row: a later update of contract 7, acted by `wBob`. -/
def wAudit2 : AuditLog :=
  ⟨2, some 2, "UPDATE_CONTRACT",
    "[CID:7] Updated Contract. Changes: value: '1200' -> '1500'", 9, none,
    none⟩

/-- `wDB` enriched with a tag, links for contract 7 and two audit rows. -/
def wDBAudit : DB :=
  { wDB with
    tags := [⟨1, "Legal", "#10b981"⟩],
    tagLinks := [⟨7, 1⟩],
    listLinks := [⟨7, 1⟩],
    auditLogs := [wAudit1, wAudit2],
    nextTagId := 2,
    nextAuditId := 3 }

/-- A small, valid PDF upload. -/
def wFile : FileUpload := ⟨100, "application/pdf", ".pdf"⟩

/-- The contract row created by uploading "Lease B" over `wDB`. -/
def wLeaseB : Contract :=
  ⟨8, "Lease B", none, ⟨100, 0⟩, ⟨465, 0⟩, "uploads/u2.pdf", 3, 30, 1200, 1,
    none⟩

/-- The state after the mutation commit of the "Lease B" upload (before the
audit commit). -/
def wDB2mid : DB :=
  { wDB with contracts := [wLease, wLeaseB], nextContractId := 9 }

/-- The state after the audit commit of the "Lease B" upload. -/
def wDB2fin : DB :=
  log_audit wDB2mid (some 2) "UPLOAD" "[CID:8] Uploaded contract Lease B"
    none none 3

/-- The contract row created by uploading "Bad" with value -5 over `wDB`. -/
def wNegContract : Contract :=
  ⟨8, "Bad", none, ⟨100, 0⟩, ⟨465, 0⟩, "uploads/u1.pdf", 3, 30, -5, 1, none⟩

/-- The final state of the negative-value upload. -/
def wDBNeg : DB :=
  log_audit
    { wDB with
      contracts := [wLease, wNegContract],
      nextContractId := 9 }
    (some 2) "UPLOAD" "[CID:8] Uploaded contract Bad" none none 3

/-- A value-only update form: set value to 1500. -/
def wC6form : ContractUpdateForm :=
  ⟨none, none, none, none, some 1500, none, none⟩

/-- Contract 7 with its value updated to 1500. -/
def wLeaseUpd : Contract := { wLease with value := 1500 }

/-- The audit entry recorded by the value update of contract 7. -/
def wAudit3 : AuditLog :=
  ⟨3, some 1, "UPDATE_CONTRACT",
    "[CID:7] Updated Contract. Changes: value: '1200' -> '1500'", 11, none,
    none⟩

/-- The state after the value update of contract 7 over `wDBAudit`. -/
def wDB6 : DB :=
  { wDBAudit with
    contracts := [wLeaseUpd],
    auditLogs := [wAudit1, wAudit2, wAudit3],
    nextAuditId := 4 }

/-- The state after renaming user 2 to the pattern-violating `"a b!"`. -/
def wDBRenamed : DB :=
  log_audit { wDB with users := [wAdmin, { wBob with username := "a b!" }] }
    (some 1) "UPDATE_USER" "Updated user 'a b!': username: 'bob' -> 'a b!'"
    none none 5

/-- The user row persisted by creating the username `"abc\n"` (allowed
characters plus one trailing newline). -/
def wUserNl : User := ⟨3, "abc\n", "hashed:password1", "user", none, true, 5⟩

/-- The state after the admin creates the trailing-newline username over
`wDB`. -/
def wDBNlUser : DB :=
  log_audit
    { wDB with users := wDB.users ++ [wUserNl], nextUserId := 4 }
    (some 1) "CREATE_USER" "Created user 'abc\n'" none none 5

/-! ### C1 -/

/-- C1: `check_contract_permission` returns true for admins unconditionally
(even when a restrictive row for the pair exists); otherwise true when no row
for `(user.id, contract_id)` exists; otherwise true iff
`hierarchy[row.level] >= hierarchy[required]` with
`hierarchy = {read:1, write:2, full:3}`; it is a pure function of its inputs
(the permission table is not modified — the embedding returns only a `Bool`).
-/
theorem C1_permission_evaluator (user : User) (cid : Nat) (level : String)
    (perms : List ContractPermission)
    (hlevel : level = "read" ∨ level = "write" ∨ level = "full") :
    (user.role = "admin" → check_contract_permission user cid level perms = true) ∧
    (user.role ≠ "admin" →
      (perms.find? (fun p => p.user_id == user.id && p.contract_id == cid)
          = none →
        check_contract_permission user cid level perms = true) ∧
      (∀ row, perms.find? (fun p => p.user_id == user.id && p.contract_id == cid)
          = some row →
        (check_contract_permission user cid level perms = true ↔
          level_hierarchy_get row.permission_level ≥ level_hierarchy_get level))) := by
  refine ⟨fun hadm => ?_, fun hnadm => ⟨fun hnone => ?_, fun row hrow => ?_⟩⟩
  · simp [check_contract_permission, hadm]
  · simp [check_contract_permission, hnone]
  · have hr : (user.role == "admin") = false := by
      simp [hnadm]
    simp [check_contract_permission, hr, hrow]

/-- Witness for C1 at concrete inputs: a non-admin user with a `read`-level
row on contract 7 is allowed `read`. -/
theorem C1_permission_evaluator_witness :
    ("read" = "read" ∨ "read" = "write" ∨ "read" = "full") ∧
    ((User.mk 2 "bob" "h" "user" none true 0).role = "admin" →
      check_contract_permission (User.mk 2 "bob" "h" "user" none true 0) 7 "read"
        [ContractPermission.mk 1 2 7 "read"] = true) ∧
    ((User.mk 2 "bob" "h" "user" none true 0).role ≠ "admin" →
      ([ContractPermission.mk 1 2 7 "read"].find? (fun p =>
          p.user_id == (User.mk 2 "bob" "h" "user" none true 0).id &&
            p.contract_id == 7) = none →
        check_contract_permission (User.mk 2 "bob" "h" "user" none true 0) 7 "read"
          [ContractPermission.mk 1 2 7 "read"] = true) ∧
      (∀ row, [ContractPermission.mk 1 2 7 "read"].find? (fun p =>
          p.user_id == (User.mk 2 "bob" "h" "user" none true 0).id &&
            p.contract_id == 7) = some row →
        (check_contract_permission (User.mk 2 "bob" "h" "user" none true 0) 7 "read"
            [ContractPermission.mk 1 2 7 "read"] = true ↔
          level_hierarchy_get row.permission_level ≥ level_hierarchy_get "read"))) :=
  ⟨Or.inl rfl,
    C1_permission_evaluator (User.mk 2 "bob" "h" "user" none true 0) 7 "read"
      [ContractPermission.mk 1 2 7 "read"] (Or.inl rfl)⟩

/-! ### C10 -/

/-- C10: a non-admin user holding a permission row whose stored level is not
one of `read`/`write`/`full` is denied every required level in
`{read, write, full}`: the unknown string maps to rank 0, which never reaches
the required rank, and in particular does not fall back to the
default-full-access case. -/
theorem C10_unknown_level_denies_all (user : User) (cid : Nat) (level : String)
    (perms : List ContractPermission) (row : ContractPermission)
    (hnadm : user.role ≠ "admin")
    (hrow : perms.find? (fun p => p.user_id == user.id && p.contract_id == cid)
      = some row)
    (hbad : row.permission_level ≠ "read" ∧ row.permission_level ≠ "write" ∧
      row.permission_level ≠ "full")
    (hlevel : level = "read" ∨ level = "write" ∨ level = "full") :
    check_contract_permission user cid level perms = false := by
  have hr : (user.role == "admin") = false := by
    simp [hnadm]
  have hz : level_hierarchy_get row.permission_level = 0 := by
    simp [level_hierarchy_get, hbad.1, hbad.2.1, hbad.2.2]
  have hpos : 1 ≤ level_hierarchy_get level := by
    rcases hlevel with h | h | h <;> simp [level_hierarchy_get, h]
  simp [check_contract_permission, hr, hrow, hz]
  omega

/-- Witness for C10: user `bob` with a corrupted level string `"admin"` stored
in his row on contract 7 is denied `read`. -/
theorem C10_unknown_level_denies_all_witness :
    check_contract_permission (User.mk 2 "bob" "h" "user" none true 0) 7 "read"
      [ContractPermission.mk 1 2 7 "admin"] = false :=
  C10_unknown_level_denies_all (User.mk 2 "bob" "h" "user" none true 0) 7 "read"
    [ContractPermission.mk 1 2 7 "admin"] (ContractPermission.mk 1 2 7 "admin")
    (by decide) (by decide) (by decide) (Or.inl rfl)

/-! ### C7 -/

theorem map_updateFirstWhere (proj : α → β) (pred : α → Bool) (f : α → α)
    (l : List α) (hf : ∀ x, proj (f x) = proj x) :
    (updateFirstWhere pred f l).map proj = l.map proj := by
  induction l with
  | nil => rfl
  | cons x xs ih =>
    by_cases h : pred x
    · simp [updateFirstWhere, h, hf]
    · simp [updateFirstWhere, h, ih]

theorem length_updateFirstWhere (pred : α → Bool) (f : α → α) (l : List α) :
    (updateFirstWhere pred f l).length = l.length := by
  induction l with
  | nil => rfl
  | cons x xs ih =>
    by_cases h : pred x
    · simp [updateFirstWhere, h]
    · simp [updateFirstWhere, h, ih]

theorem find?_updateFirstWhere (pred : α → Bool) (f : α → α) (l : List α)
    (x : α) (h : l.find? pred = some x) (hf : pred (f x) = true) :
    (updateFirstWhere pred f l).find? pred = some (f x) := by
  induction l with
  | nil => simp at h
  | cons y ys ih =>
    by_cases hy : pred y
    · rw [List.find?_cons_of_pos _ hy] at h
      cases h
      simp [updateFirstWhere, hy, List.find?_cons_of_pos _ hf]
    · rw [List.find?_cons_of_neg _ hy] at h
      simp [updateFirstWhere, hy, List.find?_cons_of_neg _ hy, ih h]

/-- C7: `create_permission` preserves the at-most-one-row-per-pair invariant.
When a row for `(user_id, contract_id)` already exists, the table keeps the
same number of rows (no second row is inserted) and the pair's row now carries
the requested `permission_level`; when no row exists, the inserted table still
satisfies the invariant. -/
theorem C7_permission_upsert_invariant (d : PermissionCreate) (admin : User)
    (ip ua : Option String) (now : Nat) (db : DB) (db' : DB)
    (hinv : pairUnique db.permissions)
    (hok : create_permission d admin ip ua now db = .ok db') :
    pairUnique db'.permissions ∧
    (∀ row, db.permissions.find? (fun p =>
        p.user_id == d.user_id && p.contract_id == d.contract_id) = some row →
      db'.permissions.length = db.permissions.length ∧
      db'.permissions.find? (fun p =>
          p.user_id == d.user_id && p.contract_id == d.contract_id)
        = some { row with permission_level := d.permission_level }) := by
  unfold create_permission at hok
  split at hok
  · cases hok
  · split at hok
    · cases hok
    next user hu =>
      split at hok
      · cases hok
      next contract hc =>
        split at hok
        next row0 hp =>
          injection hok with hok
          subst hok
          refine ⟨?_, ?_⟩
          · unfold pairUnique at hinv ⊢
            simp only [log_audit]
            rw [map_updateFirstWhere (fun p => (p.user_id, p.contract_id)) _
              (fun p => { p with permission_level := d.permission_level })
              db.permissions (fun x => rfl)]
            exact hinv
          · intro row hrow
            rw [hp] at hrow
            injection hrow with hrow
            subst hrow
            simp only [log_audit]
            refine ⟨length_updateFirstWhere _ _ _, ?_⟩
            apply find?_updateFirstWhere _ _ _ _ hp
            have hpred := List.find?_some hp
            simpa using hpred
        next hp =>
          injection hok with hok
          subst hok
          refine ⟨?_, ?_⟩
          · unfold pairUnique at hinv ⊢
            simp only [log_audit]
            rw [List.map_append, List.nodup_append]
            refine ⟨hinv, by simp, ?_⟩
            intro a ha hb
            simp only [List.map_cons, List.map_nil, List.mem_singleton] at hb
            subst hb
            simp only [List.mem_map] at ha
            obtain ⟨p, hpmem, hproj⟩ := ha
            have hnp := List.find?_eq_none.mp hp p hpmem
            simp only [Bool.and_eq_true, beq_iff_eq, not_and] at hnp
            have h1 : p.user_id = d.user_id := congrArg Prod.fst hproj
            have h2 : p.contract_id = d.contract_id := congrArg Prod.snd hproj
            exact hnp h1 h2
          · intro row hrow
            rw [hp] at hrow
            cases hrow

/-- Witness for C7: upserting `write` for the pair (2, 7) over `wDB`, whose
table already holds a `read` row for that pair, keeps the invariant and keeps
exactly one row. -/
theorem C7_permission_upsert_invariant_witness :
    pairUnique wDB.permissions ∧
    pairUnique (log_audit { wDB with
        permissions := [ContractPermission.mk 1 2 7 "write"] }
      (some 1) "UPDATE_PERMISSION"
      "Updated permission for 'bob' on contract 'Lease A' to 'write'"
      none none 5).permissions ∧
    (log_audit { wDB with
        permissions := [ContractPermission.mk 1 2 7 "write"] }
      (some 1) "UPDATE_PERMISSION"
      "Updated permission for 'bob' on contract 'Lease A' to 'write'"
      none none 5).permissions.length = wDB.permissions.length := by
  have h := C7_permission_upsert_invariant (PermissionCreate.mk 2 7 "write")
    wAdmin none none 5 wDB
    (log_audit { wDB with
        permissions := [ContractPermission.mk 1 2 7 "write"] }
      (some 1) "UPDATE_PERMISSION"
      "Updated permission for 'bob' on contract 'Lease A' to 'write'"
      none none 5)
    (by decide) (by rfl)
  exact ⟨by decide, h.1,
    (h.2 (ContractPermission.mk 1 2 7 "read") (by rfl)).1⟩


/-! ### C3 -/

/-- C3: on every successful delete the contract's tag links, list links and
row are removed, and the outcome is independent of blob-storage failure (a
failing `os.remove` is logged and swallowed) — but the audit trail is left
untouched: `delete_contract` records no audit entry at all, contradicting the
claim that the mutation is performed atomically with an audit record of the
deletion. -/
theorem C3_delete_contract_unaudited (cid : Nat) (user : User)
    (fod sok : Bool) (db db' : DB)
    (hok : delete_contract cid user fod sok db = .ok db') :
    db'.contracts = db.contracts.filter (fun c => !(c.id == cid)) ∧
    db'.tagLinks = db.tagLinks.filter (fun l => !(l.contract_id == cid)) ∧
    db'.listLinks = db.listLinks.filter (fun l => !(l.contract_id == cid)) ∧
    db'.auditLogs = db.auditLogs ∧
    delete_contract cid user fod false db = .ok db' := by
  unfold delete_contract at hok ⊢
  split at hok
  · cases hok
  next c hc =>
    split at hok
    · cases hok
    next hperm =>
      injection hok with hok
      subst hok
      rw [if_neg hperm]
      exact ⟨rfl, rfl, rfl, rfl, rfl⟩

/-- Witness for C3: the admin deletes contract 7 from `wDBAudit` while the
blob delete fails; the row and its links are gone and no audit entry was
added. -/
theorem C3_delete_contract_unaudited_witness :
    ({ wDBAudit with contracts := [], tagLinks := [], listLinks := [] }
        : DB).contracts
      = wDBAudit.contracts.filter (fun c => !(c.id == 7)) ∧
    ({ wDBAudit with contracts := [], tagLinks := [], listLinks := [] }
        : DB).tagLinks
      = wDBAudit.tagLinks.filter (fun l => !(l.contract_id == 7)) ∧
    ({ wDBAudit with contracts := [], tagLinks := [], listLinks := [] }
        : DB).listLinks
      = wDBAudit.listLinks.filter (fun l => !(l.contract_id == 7)) ∧
    ({ wDBAudit with contracts := [], tagLinks := [], listLinks := [] }
        : DB).auditLogs = wDBAudit.auditLogs ∧
    delete_contract 7 wAdmin true false wDBAudit
      = .ok { wDBAudit with contracts := [], tagLinks := [], listLinks := [] } :=
  C3_delete_contract_unaudited 7 wAdmin true true wDBAudit
    { wDBAudit with contracts := [], tagLinks := [], listLinks := [] }
    (by rfl)

/-! ### C4 -/

theorem mem_insertSorted (le : α → α → Bool) (x b : α) (l : List α) :
    b ∈ insertSorted le x l ↔ b = x ∨ b ∈ l := by
  induction l with
  | nil => simp [insertSorted]
  | cons y ys ih =>
    by_cases h : le x y
    · simp only [insertSorted, if_pos h, List.mem_cons]
    · simp only [insertSorted, if_neg h, List.mem_cons, ih]
      tauto

theorem pairwise_insertSorted (le : α → α → Bool)
    (htot : ∀ a b, le a b = true ∨ le b a = true)
    (htrans : ∀ a b c, le a b = true → le b c = true → le a c = true)
    (x : α) (l : List α) (h : l.Pairwise (fun a b => le a b = true)) :
    (insertSorted le x l).Pairwise (fun a b => le a b = true) := by
  induction l with
  | nil => simp [insertSorted]
  | cons y ys ih =>
    rw [List.pairwise_cons] at h
    by_cases hxy : le x y = true
    · rw [insertSorted, if_pos hxy]
      refine List.Pairwise.cons ?_ (List.Pairwise.cons h.1 h.2)
      intro b hb
      rcases List.mem_cons.mp hb with rfl | hb2
      · exact hxy
      · exact htrans x y b hxy (h.1 b hb2)
    · rw [insertSorted, if_neg hxy]
      refine List.Pairwise.cons ?_ (ih h.2)
      intro b hb
      rcases (mem_insertSorted le x b ys).mp hb with hbx | hb2
      · rw [hbx]
        rcases htot x y with h1 | h1
        · exact absurd h1 hxy
        · exact h1
      · exact h.1 b hb2

theorem pairwise_sortByRel (le : α → α → Bool)
    (htot : ∀ a b, le a b = true ∨ le b a = true)
    (htrans : ∀ a b c, le a b = true → le b c = true → le a c = true)
    (l : List α) :
    (sortByRel le l).Pairwise (fun a b => le a b = true) := by
  induction l with
  | nil => simp [sortByRel]
  | cons x xs ih => exact pairwise_insertSorted le htot htrans x _ ih

theorem auditDesc_total (a b : AuditLog) :
    auditDesc a b = true ∨ auditDesc b a = true := by
  simp only [auditDesc, decide_eq_true_eq]
  omega

theorem auditDesc_trans (a b c : AuditLog) :
    auditDesc a b = true → auditDesc b c = true → auditDesc a c = true := by
  simp only [auditDesc, decide_eq_true_eq]
  omega

/-- Timestamps of a sorted-then-enriched audit list descend. -/
theorem auditView_timestamps_sorted (users : List User) (ls : List AuditLog) :
    (((sortByRel auditDesc ls).map
        (fun l => AuditLogView.mk l (resolveUsername users l.user_id))).map
      (fun v => v.log.timestamp)).Pairwise (fun a b => b ≤ a) := by
  rw [List.map_map]
  rw [List.pairwise_map]
  refine (pairwise_sortByRel auditDesc auditDesc_total auditDesc_trans ls).imp ?_
  intro a b hab
  simpa [auditDesc] using hab

/-- Timestamps of a sorted, truncated, enriched audit list descend. -/
theorem auditView_timestamps_sorted_take (users : List User)
    (ls : List AuditLog) (n : Nat) :
    ((((sortByRel auditDesc ls).take n).map
        (fun l => AuditLogView.mk l (resolveUsername users l.user_id))).map
      (fun v => v.log.timestamp)).Pairwise (fun a b => b ≤ a) := by
  rw [List.map_map]
  rw [List.pairwise_map]
  refine (((pairwise_sortByRel auditDesc auditDesc_total auditDesc_trans
    ls).sublist (List.take_sublist _ _)).imp ?_)
  intro a b hab
  simpa [auditDesc] using hab

/-- C4 amended: the global audit feed is admin-only (non-admin requests fail
with the authorization-denied error, admin requests succeed and descend by
timestamp); the per-contract feed performs no role check: it succeeds for
every authenticated user, ordered by timestamp descending. -/
theorem C4_audit_read_surfaces (user : User) (cid : Nat) (db : DB) :
    (user.role ≠ "admin" →
      get_audit_logs user db = .error (.forbidden "Admin access required")) ∧
    (user.role = "admin" → ∃ l, get_audit_logs user db = .ok l ∧
      (l.map (fun v => v.log.timestamp)).Pairwise (fun a b => b ≤ a)) ∧
    (∃ l, get_contract_audit_logs cid user db = .ok l ∧
      (l.map (fun v => v.log.timestamp)).Pairwise (fun a b => b ≤ a)) := by
  refine ⟨fun hnadm => ?_, fun hadm => ?_, ?_⟩
  · have hb : (user.role != "admin") = true := by
      simpa [bne_iff_ne] using hnadm
    simp [get_audit_logs, hb]
  · have hb : (user.role != "admin") = false := by
      simp [hadm]
    have hgl : get_audit_logs user db
        = .ok (((sortByRel auditDesc db.auditLogs).take 100).map
          (fun l => ⟨l, resolveUsername db.users l.user_id⟩)) := by
      simp [get_audit_logs, hb]
    exact ⟨_, hgl, auditView_timestamps_sorted_take db.users db.auditLogs 100⟩
  · refine ⟨_, rfl, ?_⟩
    exact auditView_timestamps_sorted db.users _

/-- Witness for C4 amended, at `wBob` (non-admin), `wAdmin` and contract 7
over `wDBAudit`. -/
theorem C4_audit_read_surfaces_witness :
    get_audit_logs wBob wDBAudit
      = .error (.forbidden "Admin access required") ∧
    (∃ l, get_audit_logs wAdmin wDBAudit = .ok l ∧
      (l.map (fun v => v.log.timestamp)).Pairwise (fun a b => b ≤ a)) ∧
    (∃ l, get_contract_audit_logs 7 wBob wDBAudit = .ok l ∧
      (l.map (fun v => v.log.timestamp)).Pairwise (fun a b => b ≤ a)) :=
  ⟨(C4_audit_read_surfaces wBob 7 wDBAudit).1 (by decide),
    (C4_audit_read_surfaces wAdmin 7 wDBAudit).2.1 (by rfl),
    (C4_audit_read_surfaces wBob 7 wDBAudit).2.2⟩

/-- C4 counterexample: `wBob` is not an admin, yet the per-contract audit feed
answers his request with the full (sorted) history of contract 7 instead of
an authorization-denied error — the claim that both audit read surfaces are
admin-only is false. -/
theorem C4_per_contract_feed_not_admin_only :
    wBob.role ≠ "admin" ∧
    get_contract_audit_logs 7 wBob wDBAudit
      = .ok [⟨wAudit2, "bob"⟩, ⟨wAudit1, "admin"⟩] := by
  constructor
  · decide
  · rfl


/-! ### C5 -/

/-- C5: the Contract Query Engine is noninterferent with respect to the
requesting user and the permission table: for every filter combination, two
runs by different authenticated users over stores differing only in their
`ContractPermission` rows return the same result list (same set and same
order) — `read_contracts` performs no per-row permission filtering. -/
theorem C5_query_noninterference (f : ContractQuery) (now : PyDateTime)
    (u1 u2 : User) (db : DB) (p1 p2 : List ContractPermission) :
    read_contracts f now u1 { db with permissions := p1 }
      = read_contracts f now u2 { db with permissions := p2 } := rfl

/-! ### C9 -/

/-- C9 amended: creating a user succeeds only when the username satisfies the
length bounds, uniqueness and the validator's character pattern — which, via
Python's `$`, also accepts a username of allowed characters plus one trailing
newline, so the create path enforces the `[A-Za-z0-9_-]+` invariant only up
to that allowance (and the new table is the old one extended by exactly that
username); renaming a user via admin update succeeds only when the new
username satisfies the length bounds and — when it differs from the current
one — uniqueness, but the character pattern is NOT enforced on rename
(`UserUpdate` declares no pattern validator). -/
theorem C9_username_validation (d : UserCreate) (e : UserUpdate) (uid : Nat)
    (admin : User) (ip ua : Option String) (now : Nat) (db : DB) :
    (∀ db', create_user d admin ip ua now db = .ok db' →
      (3 ≤ d.username.length ∧ d.username.length ≤ 32 ∧
        usernamePatternOk d.username = true) ∧
      db.users.find? (fun u => u.username == d.username) = none ∧
      db'.users.map (fun u => u.username)
        = db.users.map (fun u => u.username) ++ [d.username]) ∧
    (∀ newU, e.username = some newU →
      ∀ db', update_user uid e admin ip ua now db = .ok db' →
        (3 ≤ newU.length ∧ newU.length ≤ 32) ∧
        ∀ user, db.users.find? (fun u => u.id == uid) = some user →
          newU ≠ user.username →
            db.users.find? (fun u => u.username == newU) = none) := by
  constructor
  · intro db' hok
    unfold create_user at hok
    split at hok
    · cases hok
    next hbad =>
      split at hok
      · cases hok
      next hadm =>
        split at hok
        · cases hok
        next hexists =>
          injection hok with hok
          subst hok
          have hv : userCreateValid d = true := by
            revert hbad
            cases userCreateValid d <;> simp
          have hv' := hv
          simp only [userCreateValid, Bool.and_eq_true, decide_eq_true_eq]
            at hv'
          refine ⟨⟨hv'.1.1.1.1, hv'.1.1.1.2, hv'.2⟩, ?_, ?_⟩
          · exact Option.not_isSome_iff_eq_none.mp (by simpa using hexists)
          · simp [log_audit]
  · intro newU hnewU db' hok
    unfold update_user at hok
    split at hok
    · cases hok
    next hbad =>
      have hv : userUpdateValid e = true := by
        revert hbad
        cases userUpdateValid e <;> simp
      have hlen : 3 ≤ newU.length ∧ newU.length ≤ 32 := by
        have hv' := hv
        simp only [userUpdateValid, Bool.and_eq_true] at hv'
        have h1 := hv'.1
        rw [hnewU] at h1
        simpa [decide_eq_true_eq] using h1
      split at hok
      · cases hok
      next hadm =>
        split at hok
        · cases hok
        next user huser =>
          refine ⟨hlen, ?_⟩
          intro user' huser' hne
          rw [huser] at huser'
          injection huser' with heq
          simp only [hnewU] at hok
          split at hok
          · cases hok
          next hconf =>
            have hcf : (newU != user.username &&
                (db.users.find? (fun x => x.username == newU)).isSome)
                  = false := by
              revert hconf
              cases h : (newU != user.username &&
                  (db.users.find? (fun x => x.username == newU)).isSome)
                <;> simp
            by_cases hb : (newU != user.username) = true
            · have hns : (db.users.find?
                  (fun x => x.username == newU)).isSome = false := by
                cases hsome : (db.users.find?
                    (fun x => x.username == newU)).isSome
                · rfl
                · rw [hb, hsome] at hcf
                  cases hcf
              exact Option.not_isSome_iff_eq_none.mp (by simp [hns])
            · have hb' : newU = user.username := by
                simpa [bne_iff_ne] using hb
              exact absurd (heq ▸ hb') hne

/-- Witness for C9 amended: applied at the concrete creation of user `carol`
and the concrete rename of user 2 to `carol2` over `wDB`. -/
theorem C9_username_validation_witness :
    ((3 ≤ "carol".length ∧ "carol".length ≤ 32 ∧
        usernamePatternOk "carol" = true) ∧
      wDB.users.find? (fun u => u.username == "carol") = none ∧
      (log_audit
          { wDB with
            users := wDB.users ++
              [⟨wDB.nextUserId, "carol", get_password_hash "password1",
                "user", none, true, 5⟩],
            nextUserId := wDB.nextUserId + 1 }
          (some 1) "CREATE_USER" "Created user 'carol'" none none
          5).users.map (fun u => u.username)
        = wDB.users.map (fun u => u.username) ++ ["carol"]) ∧
    ((3 ≤ "carol2".length ∧ "carol2".length ≤ 32) ∧
      ∀ user, wDB.users.find? (fun u => u.id == 2) = some user →
        "carol2" ≠ user.username →
          wDB.users.find? (fun u => u.username == "carol2") = none) :=
  ⟨(C9_username_validation (UserCreate.mk "carol" "password1")
      (UserUpdate.mk (some "carol2") none none none) 2 wAdmin none none 5
      wDB).1 _ (by rfl),
    (C9_username_validation (UserCreate.mk "carol" "password1")
      (UserUpdate.mk (some "carol2") none none none) 2 wAdmin none none 5
      wDB).2 "carol2" rfl _ (by rfl)⟩


/-! ### C9 counterexample -/

/-- C9 counterexample: the username character invariant is not preserved by
every user-mutating operation.  Renaming user 2 to `"a b!"` — a username that
violates the `[A-Za-z0-9_-]+` pattern while satisfying the length bounds — is
accepted by the admin update path and persisted (the rename path runs no
pattern check); and creating a user named `"abc\n"` is accepted and persisted
too: `re.match(r'^[a-zA-Z0-9_-]+$', ...)` matches before the trailing newline
although the stored name violates the invariant. -/
theorem C9_pattern_not_fully_enforced :
    usernamePatternSpec "a b!" = false ∧
    update_user 2 (UserUpdate.mk (some "a b!") none none none) wAdmin
      none none 5 wDB = .ok wDBRenamed ∧
    wDBRenamed.users.map (fun u => u.username) = ["admin", "a b!"] ∧
    usernamePatternSpec "abc\n" = false ∧
    usernamePatternOk "abc\n" = true ∧
    create_user (UserCreate.mk "abc\n" "password1") wAdmin none none 5 wDB
      = .ok wDBNlUser ∧
    wDBNlUser.users.map (fun u => u.username) = ["admin", "bob", "abc\n"] :=
  ⟨by decide, by rfl, by decide, by decide, by decide, by rfl, by decide⟩

/-! ### C2 -/

theorem getLastD_append_two (l : List α) (a b d : α) :
    (l ++ [a, b]).getLastD d = b := by
  induction l generalizing d with
  | nil => rfl
  | cons x xs ih =>
    rw [List.cons_append, List.getLastD_cons, ih]

/-- The tag find-or-create loop never touches the contract or audit tables:
the resulting store and every intermediate committed state keep them
unchanged, and the contract id counter is untouched. -/
theorem createTagsLoop_spec (names : List String) (db : DB) :
    (createTagsLoop names db).2.1.auditLogs = db.auditLogs ∧
    (createTagsLoop names db).2.1.contracts = db.contracts ∧
    (createTagsLoop names db).2.1.nextContractId = db.nextContractId ∧
    ∀ s ∈ (createTagsLoop names db).2.2,
      s.auditLogs = db.auditLogs ∧ s.contracts = db.contracts := by
  induction names generalizing db with
  | nil => simp [createTagsLoop]
  | cons n rest ih =>
    cases hf : db.tags.find? (fun t => t.name == n) with
    | some t =>
      simp only [createTagsLoop, hf]
      exact ih db
    | none =>
      simp only [createTagsLoop, hf]
      have h := ih { db with
        tags := db.tags ++ [⟨db.nextTagId, n, "#3b82f6"⟩],
        nextTagId := db.nextTagId + 1 }
      refine ⟨h.1, h.2.1, h.2.2.1, ?_⟩
      intro s hs
      rcases List.mem_cons.mp hs with rfl | hs2
      · exact ⟨rfl, rfl⟩
      · exact h.2.2.2 s hs2

/-- C2 counterexample: in the "Lease B" upload, the state `wDB2mid` reached
by a crash between the mutation commit (`main.py` line 393) and the audit
commit (`security_utils.py` line 19) holds the new contract row with no audit
entry for it: the claim that mutation and audit entry are committed as a
single transaction is false. -/
theorem C2_crash_between_commits :
    create_contract "Lease B" ⟨100, 0⟩ ⟨465, 0⟩ 1200 30 wFile none "" "u2"
      wBob none none 3 wDB = .ok [wDB2mid, wDB2fin] ∧
    ¬ (∀ s ∈ crashStates wDB [wDB2mid, wDB2fin],
        (s.contracts.any (fun c => c.id == 8) = true ↔
          s.auditLogs.any
            (fun l => strContains l.details "[CID:8]") = true)) :=
  ⟨by rfl, by decide⟩

/-! ### C8 -/

/-- C8: the upload endpoint never applies the `ge=0` constraint that
`ContractCreate` declares (`contractCreateValueOk`): uploading with monetary
value -5 succeeds and persists a `Contract` row with a negative value,
instead of failing with a validation error and creating no row. -/
theorem C8_negative_value_persisted :
    contractCreateValueOk (-5) = false ∧
    create_contract_final "Bad" ⟨100, 0⟩ ⟨465, 0⟩ (-5) 30 wFile none "" "u1"
      wBob none none 3 wDB = .ok wDBNeg ∧
    wNegContract ∈ wDBNeg.contracts ∧
    wNegContract.value < 0 :=
  ⟨by decide, by rfl, by decide, by decide⟩

/-! ### C6 step lemmas -/

theorem stepTitle_spec (form : ContractUpdateForm)
    (st : Contract × List String) :
    (stepTitle form st).1.title
        = (match form.title with | some t => t | none => st.1.title) ∧
    (stepTitle form st).1.description = st.1.description ∧
    (stepTitle form st).1.start_date = st.1.start_date ∧
    (stepTitle form st).1.end_date = st.1.end_date ∧
    (stepTitle form st).1.value = st.1.value ∧
    (stepTitle form st).1.notice_period = st.1.notice_period ∧
    (stepTitle form st).1.id = st.1.id ∧
    (stepTitle form st).1.file_path = st.1.file_path ∧
    (stepTitle form st).2 = st.2 ++ (match form.title with
      | some t => if st.1.title != t then
          ["title: '" ++ st.1.title ++ "' -> '" ++ t ++ "'"] else []
      | none => []) := by
  cases h : form.title with
  | none => simp [stepTitle, h]
  | some t =>
    by_cases hc : (st.1.title != t) = true
    · simp [stepTitle, h, hc]
    · have he : st.1.title = t := by
        simpa [bne_iff_ne] using hc
      exact ⟨by simp [stepTitle, h, hc, he], by simp [stepTitle, h, hc],
        by simp [stepTitle, h, hc], by simp [stepTitle, h, hc],
        by simp [stepTitle, h, hc], by simp [stepTitle, h, hc],
        by simp [stepTitle, h, hc], by simp [stepTitle, h, hc],
        by simp [stepTitle, h, hc]⟩

theorem stepDescription_spec (form : ContractUpdateForm)
    (st : Contract × List String) :
    (stepDescription form st).1.title = st.1.title ∧
    (stepDescription form st).1.description
        = (match form.description with
          | some d => some d
          | none => st.1.description) ∧
    (stepDescription form st).1.start_date = st.1.start_date ∧
    (stepDescription form st).1.end_date = st.1.end_date ∧
    (stepDescription form st).1.value = st.1.value ∧
    (stepDescription form st).1.notice_period = st.1.notice_period ∧
    (stepDescription form st).1.id = st.1.id ∧
    (stepDescription form st).1.file_path = st.1.file_path ∧
    (stepDescription form st).2 = st.2 ++ (match form.description with
      | some d => if st.1.description != some d then
          ["description: '" ++ optStr st.1.description ++ "' -> '" ++ d
            ++ "'"] else []
      | none => []) := by
  cases h : form.description with
  | none => simp [stepDescription, h]
  | some d =>
    by_cases hc : (st.1.description != some d) = true
    · simp [stepDescription, h, hc]
    · have he : st.1.description = some d := by
        simpa [bne_iff_ne] using hc
      exact ⟨by simp [stepDescription, h, hc],
        by simp [stepDescription, h, hc, he],
        by simp [stepDescription, h, hc], by simp [stepDescription, h, hc],
        by simp [stepDescription, h, hc], by simp [stepDescription, h, hc],
        by simp [stepDescription, h, hc], by simp [stepDescription, h, hc],
        by simp [stepDescription, h, hc]⟩

theorem stepStart_spec (form : ContractUpdateForm)
    (st : Contract × List String) :
    (stepStart form st).1.title = st.1.title ∧
    (stepStart form st).1.description = st.1.description ∧
    (stepStart form st).1.start_date.day
        = (match form.start_date with
          | some sd => sd.day
          | none => st.1.start_date.day) ∧
    (stepStart form st).1.end_date = st.1.end_date ∧
    (stepStart form st).1.value = st.1.value ∧
    (stepStart form st).1.notice_period = st.1.notice_period ∧
    (stepStart form st).1.id = st.1.id ∧
    (stepStart form st).1.file_path = st.1.file_path ∧
    (stepStart form st).2 = st.2 ++ (match form.start_date with
      | some sd => if st.1.start_date.day != sd.day then
          ["start_date: '" ++ toString st.1.start_date.day ++ "' -> '"
            ++ toString sd.day ++ "'"] else []
      | none => []) := by
  cases h : form.start_date with
  | none => simp [stepStart, h]
  | some sd =>
    by_cases hc : (st.1.start_date.day != sd.day) = true
    · simp [stepStart, h, hc]
    · have he : st.1.start_date.day = sd.day := by
        simpa [bne_iff_ne] using hc
      exact ⟨by simp [stepStart, h, hc], by simp [stepStart, h, hc],
        by simp [stepStart, h, hc, he], by simp [stepStart, h, hc],
        by simp [stepStart, h, hc], by simp [stepStart, h, hc],
        by simp [stepStart, h, hc], by simp [stepStart, h, hc],
        by simp [stepStart, h, hc]⟩

theorem stepEnd_spec (form : ContractUpdateForm)
    (st : Contract × List String) :
    (stepEnd form st).1.title = st.1.title ∧
    (stepEnd form st).1.description = st.1.description ∧
    (stepEnd form st).1.start_date = st.1.start_date ∧
    (stepEnd form st).1.end_date.day
        = (match form.end_date with
          | some ed => ed.day
          | none => st.1.end_date.day) ∧
    (stepEnd form st).1.value = st.1.value ∧
    (stepEnd form st).1.notice_period = st.1.notice_period ∧
    (stepEnd form st).1.id = st.1.id ∧
    (stepEnd form st).1.file_path = st.1.file_path ∧
    (stepEnd form st).2 = st.2 ++ (match form.end_date with
      | some ed => if st.1.end_date.day != ed.day then
          ["end_date: '" ++ toString st.1.end_date.day ++ "' -> '"
            ++ toString ed.day ++ "'"] else []
      | none => []) := by
  cases h : form.end_date with
  | none => simp [stepEnd, h]
  | some ed =>
    by_cases hc : (st.1.end_date.day != ed.day) = true
    · simp [stepEnd, h, hc]
    · have he : st.1.end_date.day = ed.day := by
        simpa [bne_iff_ne] using hc
      exact ⟨by simp [stepEnd, h, hc], by simp [stepEnd, h, hc],
        by simp [stepEnd, h, hc], by simp [stepEnd, h, hc, he],
        by simp [stepEnd, h, hc], by simp [stepEnd, h, hc],
        by simp [stepEnd, h, hc], by simp [stepEnd, h, hc],
        by simp [stepEnd, h, hc]⟩

theorem stepValue_spec (form : ContractUpdateForm)
    (st : Contract × List String) :
    (stepValue form st).1.title = st.1.title ∧
    (stepValue form st).1.description = st.1.description ∧
    (stepValue form st).1.start_date = st.1.start_date ∧
    (stepValue form st).1.end_date = st.1.end_date ∧
    (stepValue form st).1.value
        = (match form.value with | some v => v | none => st.1.value) ∧
    (stepValue form st).1.notice_period = st.1.notice_period ∧
    (stepValue form st).1.id = st.1.id ∧
    (stepValue form st).1.file_path = st.1.file_path ∧
    (stepValue form st).2 = st.2 ++ (match form.value with
      | some v => if st.1.value != v then
          ["value: '" ++ toString st.1.value ++ "' -> '" ++ toString v
            ++ "'"] else []
      | none => []) := by
  cases h : form.value with
  | none => simp [stepValue, h]
  | some v =>
    by_cases hc : (st.1.value != v) = true
    · simp [stepValue, h, hc]
    · have he : st.1.value = v := by
        simpa [bne_iff_ne] using hc
      exact ⟨by simp [stepValue, h, hc], by simp [stepValue, h, hc],
        by simp [stepValue, h, hc], by simp [stepValue, h, hc],
        by simp [stepValue, h, hc, he], by simp [stepValue, h, hc],
        by simp [stepValue, h, hc], by simp [stepValue, h, hc],
        by simp [stepValue, h, hc]⟩

theorem stepNotice_spec (form : ContractUpdateForm)
    (st : Contract × List String) :
    (stepNotice form st).1.title = st.1.title ∧
    (stepNotice form st).1.description = st.1.description ∧
    (stepNotice form st).1.start_date = st.1.start_date ∧
    (stepNotice form st).1.end_date = st.1.end_date ∧
    (stepNotice form st).1.value = st.1.value ∧
    (stepNotice form st).1.notice_period
        = (match form.notice_period with
          | some np => np
          | none => st.1.notice_period) ∧
    (stepNotice form st).1.id = st.1.id ∧
    (stepNotice form st).1.file_path = st.1.file_path ∧
    (stepNotice form st).2 = st.2 ++ (match form.notice_period with
      | some np => if st.1.notice_period != np then
          ["notice_period: '" ++ toString st.1.notice_period ++ "' -> '"
            ++ toString np ++ "'"] else []
      | none => []) := by
  cases h : form.notice_period with
  | none => simp [stepNotice, h]
  | some np =>
    by_cases hc : (st.1.notice_period != np) = true
    · simp [stepNotice, h, hc]
    · have he : st.1.notice_period = np := by
        simpa [bne_iff_ne] using hc
      exact ⟨by simp [stepNotice, h, hc], by simp [stepNotice, h, hc],
        by simp [stepNotice, h, hc], by simp [stepNotice, h, hc],
        by simp [stepNotice, h, hc], by simp [stepNotice, h, hc, he],
        by simp [stepNotice, h, hc], by simp [stepNotice, h, hc],
        by simp [stepNotice, h, hc]⟩

/-- The six field steps on a contract `c`: resulting field values. -/
theorem fieldSteps_fields (c : Contract) (form : ContractUpdateForm) :
    (fieldSteps c form).1.title
        = (match form.title with | some t => t | none => c.title) ∧
    (fieldSteps c form).1.description
        = (match form.description with
          | some d => some d
          | none => c.description) ∧
    (fieldSteps c form).1.start_date.day
        = (match form.start_date with
          | some sd => sd.day
          | none => c.start_date.day) ∧
    (fieldSteps c form).1.end_date.day
        = (match form.end_date with
          | some ed => ed.day
          | none => c.end_date.day) ∧
    (fieldSteps c form).1.value
        = (match form.value with | some v => v | none => c.value) ∧
    (fieldSteps c form).1.notice_period
        = (match form.notice_period with
          | some np => np
          | none => c.notice_period) ∧
    (fieldSteps c form).1.id = c.id ∧
    (fieldSteps c form).1.file_path = c.file_path := by
  obtain ⟨t1, t2, t3, t4, t5, t6, t7, t8, t9⟩ :=
    stepTitle_spec form (c, [])
  obtain ⟨d1, d2, d3, d4, d5, d6, d7, d8, d9⟩ :=
    stepDescription_spec form (stepTitle form (c, []))
  obtain ⟨s1, s2, s3, s4, s5, s6, s7, s8, s9⟩ :=
    stepStart_spec form (stepDescription form (stepTitle form (c, [])))
  obtain ⟨e1, e2, e3, e4, e5, e6, e7, e8, e9⟩ :=
    stepEnd_spec form (stepStart form (stepDescription form
      (stepTitle form (c, []))))
  obtain ⟨v1, v2, v3, v4, v5, v6, v7, v8, v9⟩ :=
    stepValue_spec form (stepEnd form (stepStart form (stepDescription form
      (stepTitle form (c, [])))))
  obtain ⟨n1, n2, n3, n4, n5, n6, n7, n8, n9⟩ :=
    stepNotice_spec form (stepValue form (stepEnd form (stepStart form
      (stepDescription form (stepTitle form (c, []))))))
  unfold fieldSteps
  refine ⟨?_, ?_, ?_, ?_, ?_, ?_, ?_, ?_⟩
  · rw [n1, v1, e1, s1, d1, t1]
  · rw [n2, v2, e2, s2, d2, t2]
  · rw [n3, v3, e3, s3, d3, t3]
  · rw [n4, v4, e4, s4, d4, t4]
  · rw [n5, v5, e5, s5, d5, t5]
  · rw [n6, v6, e6, s6, d6, t6]
  · rw [n7, v7, e7, s7, d7, t7]
  · rw [n8, v8, e8, s8, d8, t8]

/-- The six field steps on a contract `c`: the change notes, with every
comparison and rendering referring to `c`'s original field values. -/
theorem fieldSteps_notes (c : Contract) (form : ContractUpdateForm) :
    (fieldSteps c form).2 =
      ((((((match form.title with
        | some t => if c.title != t then
            ["title: '" ++ c.title ++ "' -> '" ++ t ++ "'"] else []
        | none => []) ++
      (match form.description with
        | some d => if c.description != some d then
            ["description: '" ++ optStr c.description ++ "' -> '" ++ d
              ++ "'"] else []
        | none => [])) ++
      (match form.start_date with
        | some sd => if c.start_date.day != sd.day then
            ["start_date: '" ++ toString c.start_date.day ++ "' -> '"
              ++ toString sd.day ++ "'"] else []
        | none => [])) ++
      (match form.end_date with
        | some ed => if c.end_date.day != ed.day then
            ["end_date: '" ++ toString c.end_date.day ++ "' -> '"
              ++ toString ed.day ++ "'"] else []
        | none => [])) ++
      (match form.value with
        | some v => if c.value != v then
            ["value: '" ++ toString c.value ++ "' -> '" ++ toString v
              ++ "'"] else []
        | none => [])) ++
      (match form.notice_period with
        | some np => if c.notice_period != np then
            ["notice_period: '" ++ toString c.notice_period ++ "' -> '"
              ++ toString np ++ "'"] else []
        | none => [])) := by
  obtain ⟨t1, t2, t3, t4, t5, t6, t7, t8, t9⟩ :=
    stepTitle_spec form (c, [])
  obtain ⟨d1, d2, d3, d4, d5, d6, d7, d8, d9⟩ :=
    stepDescription_spec form (stepTitle form (c, []))
  obtain ⟨s1, s2, s3, s4, s5, s6, s7, s8, s9⟩ :=
    stepStart_spec form (stepDescription form (stepTitle form (c, [])))
  obtain ⟨e1, e2, e3, e4, e5, e6, e7, e8, e9⟩ :=
    stepEnd_spec form (stepStart form (stepDescription form
      (stepTitle form (c, []))))
  obtain ⟨v1, v2, v3, v4, v5, v6, v7, v8, v9⟩ :=
    stepValue_spec form (stepEnd form (stepStart form (stepDescription form
      (stepTitle form (c, [])))))
  obtain ⟨n1, n2, n3, n4, n5, n6, n7, n8, n9⟩ :=
    stepNotice_spec form (stepValue form (stepEnd form (stepStart form
      (stepDescription form (stepTitle form (c, []))))))
  unfold fieldSteps
  rw [n9, v9, e9, s9, d9, t9]
  rw [t2, d3, t3, s4, d4, t4, e5, s5, d5, t5, v6, e6, s6, d6, t6]
  rfl

/-! ### C6 tag-replacement lemmas -/

theorem ifNote_nil_iff (b : Bool) (n : String) :
    ((if b then [n] else []) = []) ↔ b = false := by
  cases b <;> simp

theorem listSetEq_self (l : List String) : listSetEq l l = true := by
  simp [listSetEq, List.all_eq_true]

/-- A tag lookup by id finds the member itself when ids are distinct. -/
theorem find?_by_id_of_nodup (t : Tag) (tags : List Tag) (hmem : t ∈ tags)
    (hnd : (tags.map (fun x => x.id)).Nodup) :
    tags.find? (fun x => x.id == t.id) = some t := by
  induction tags with
  | nil => cases hmem
  | cons a as ih =>
    rw [List.map_cons, List.nodup_cons] at hnd
    by_cases hat : (a.id == t.id) = true
    · rw [@List.find?_cons_of_pos _ (fun x => x.id == t.id) a as hat]
      rcases List.mem_cons.mp hmem with heq | hmem2
      · rw [heq]
      · exfalso
        have hid : a.id = t.id := by simpa using hat
        apply hnd.1
        rw [hid]
        exact List.mem_map.mpr ⟨t, hmem2, rfl⟩
    · rw [@List.find?_cons_of_neg _ (fun x => x.id == t.id) a as hat]
      rcases List.mem_cons.mp hmem with heq | hmem2
      · exfalso
        rw [heq] at hat
        exact hat (by simp)
      · exact ih hmem2 hnd.2

/-- `addTagsLoop` only touches the tag table, the tag links and the tag id
counter. -/
theorem addTagsLoop_preserves (cid : Nat) (names : List String) (db : DB) :
    (addTagsLoop cid names db).users = db.users ∧
    (addTagsLoop cid names db).contracts = db.contracts ∧
    (addTagsLoop cid names db).listLinks = db.listLinks ∧
    (addTagsLoop cid names db).permissions = db.permissions ∧
    (addTagsLoop cid names db).auditLogs = db.auditLogs ∧
    (addTagsLoop cid names db).nextAuditId = db.nextAuditId ∧
    (addTagsLoop cid names db).nextContractId = db.nextContractId := by
  induction names generalizing db with
  | nil => simp [addTagsLoop]
  | cons nm rest ih =>
    cases hf : db.tags.find? (fun t => t.name == nm) with
    | some t =>
      simp only [addTagsLoop, hf]
      exact ih _
    | none =>
      simp only [addTagsLoop, hf]
      exact ih _

/-- Appending one link whose tag id resolves to a tag named `nm` appends `nm`
to a contract's tag-name list. -/
theorem contractTagNames_append_link (db : DB) (cid tid : Nat) (t : Tag)
    (hlookup : db.tags.find? (fun x => x.id == tid) = some t) :
    contractTagNames { db with tagLinks := db.tagLinks ++ [⟨cid, tid⟩] } cid
      = contractTagNames db cid ++ [t.name] := by
  unfold contractTagNames
  rw [show ({ db with tagLinks := db.tagLinks ++ [⟨cid, tid⟩]} : DB).tagLinks
    = db.tagLinks ++ [⟨cid, tid⟩] from rfl]
  rw [List.filter_append, List.map_append]
  simp [hlookup]

/-- Extending the tag table with a fresh id leaves the existing links'
name resolution unchanged. -/
theorem contractTagNames_extend_tags (db : DB) (cid : Nat) (newTag : Tag)
    (hfresh : ∀ l ∈ db.tagLinks, l.tag_id ≠ newTag.id) :
    contractTagNames { db with
        tags := db.tags ++ [newTag],
        nextTagId := db.nextTagId + 1 } cid
      = contractTagNames db cid := by
  unfold contractTagNames
  apply List.map_congr_left
  intro l hl
  have hmem : l ∈ db.tagLinks := List.mem_of_mem_filter hl
  have hne : (newTag.id == l.tag_id) = false := by
    simp only [beq_eq_false_iff_ne]
    exact fun h => hfresh l hmem (h ▸ rfl)
  rw [show ({ db with
      tags := db.tags ++ [newTag],
      nextTagId := db.nextTagId + 1 } : DB).tags
    = db.tags ++ [newTag] from rfl]
  rw [List.find?_append]
  cases hfind : db.tags.find? (fun t => t.id == l.tag_id) with
  | some t0 => rfl
  | none => simp [List.find?, hne]

/-- The find-or-create-append loop appends exactly the requested names to the
contract's tag list and preserves tag-table well-formedness. -/
theorem contractTagNames_addTagsLoop (cid : Nat) (names : List String)
    (db : DB) (hwf : tagsWF db) :
    contractTagNames (addTagsLoop cid names db) cid
      = contractTagNames db cid ++ names ∧
    tagsWF (addTagsLoop cid names db) := by
  induction names generalizing db with
  | nil => exact ⟨by simp [addTagsLoop], hwf⟩
  | cons nm rest ih =>
    cases hf : db.tags.find? (fun t => t.name == nm) with
    | some t =>
      have htmem : t ∈ db.tags := List.mem_of_find?_eq_some hf
      have htn : t.name = nm := by
        have := List.find?_some hf
        simpa using this
      have hwf' : tagsWF { db with tagLinks := db.tagLinks ++ [⟨cid, t.id⟩] } := by
        refine ⟨hwf.1, hwf.2.1, ?_⟩
        intro l hl
        rcases List.mem_append.mp hl with h1 | h2
        · exact hwf.2.2 l h1
        · simp only [List.mem_singleton] at h2
          rw [h2]
          exact hwf.1 t htmem
      have ih' := ih _ hwf'
      simp only [addTagsLoop, hf]
      refine ⟨?_, ih'.2⟩
      rw [ih'.1]
      rw [contractTagNames_append_link db cid t.id t
        (find?_by_id_of_nodup t db.tags htmem hwf.2.1)]
      rw [htn, List.append_assoc]
      rfl
    | none =>
      have hfreshlinks : ∀ l ∈ db.tagLinks,
          l.tag_id ≠ (⟨db.nextTagId, nm, "#3b82f6"⟩ : Tag).id := by
        intro l hl
        exact Nat.ne_of_lt (hwf.2.2 l hl)
      have hwf1 : tagsWF { db with
          tags := db.tags ++ [⟨db.nextTagId, nm, "#3b82f6"⟩],
          nextTagId := db.nextTagId + 1,
          tagLinks := db.tagLinks ++ [⟨cid, db.nextTagId⟩] } := by
        refine ⟨?_, ?_, ?_⟩
        · intro t ht
          rcases List.mem_append.mp ht with h1 | h2
          · exact Nat.lt_succ_of_lt (hwf.1 t h1)
          · simp only [List.mem_singleton] at h2
            rw [h2]
            exact Nat.lt_succ_self _
        · rw [List.map_append, List.nodup_append]
          refine ⟨hwf.2.1, by simp, ?_⟩
          intro a ha hb
          simp only [List.map_cons, List.map_nil, List.mem_singleton] at hb
          rw [hb] at ha
          simp only [List.mem_map] at ha
          obtain ⟨t, htm, hti⟩ := ha
          exact absurd hti (Nat.ne_of_lt (hwf.1 t htm))
        · intro l hl
          rcases List.mem_append.mp hl with h1 | h2
          · exact Nat.lt_succ_of_lt (hwf.2.2 l h1)
          · simp only [List.mem_singleton] at h2
            rw [h2]
            exact Nat.lt_succ_self _
      have ih' := ih _ hwf1
      simp only [addTagsLoop, hf]
      refine ⟨?_, ih'.2⟩
      rw [ih'.1]
      have hstep : contractTagNames { db with
          tags := db.tags ++ [⟨db.nextTagId, nm, "#3b82f6"⟩],
          nextTagId := db.nextTagId + 1,
          tagLinks := db.tagLinks ++ [⟨cid, db.nextTagId⟩] } cid
          = contractTagNames db cid ++ [nm] := by
        have e1 : ({ db with
            tags := db.tags ++ [⟨db.nextTagId, nm, "#3b82f6"⟩],
            nextTagId := db.nextTagId + 1,
            tagLinks := db.tagLinks ++ [⟨cid, db.nextTagId⟩] } : DB)
            = { ({ db with
                tags := db.tags ++ [⟨db.nextTagId, nm, "#3b82f6"⟩],
                nextTagId := db.nextTagId + 1 } : DB) with
              tagLinks := ({ db with
                tags := db.tags ++ [⟨db.nextTagId, nm, "#3b82f6"⟩],
                nextTagId := db.nextTagId + 1 } : DB).tagLinks
                  ++ [⟨cid, db.nextTagId⟩] } := rfl
        rw [e1]
        rw [contractTagNames_append_link _ cid db.nextTagId
          (⟨db.nextTagId, nm, "#3b82f6"⟩ : Tag) ?_]
        · rw [contractTagNames_extend_tags db cid _ hfreshlinks]
        · rw [show ({ db with
              tags := db.tags ++ [⟨db.nextTagId, nm, "#3b82f6"⟩],
              nextTagId := db.nextTagId + 1 } : DB).tags
            = db.tags ++ [⟨db.nextTagId, nm, "#3b82f6"⟩] from rfl]
          rw [List.find?_append]
          have hnone : db.tags.find? (fun t => t.id == db.nextTagId) = none := by
            rw [List.find?_eq_none]
            intro t ht
            simp only [beq_iff_eq]
            exact Nat.ne_of_lt (hwf.1 t ht)
          rw [hnone]
          simp [List.find?]
      rw [hstep, List.append_assoc]
      rfl

/-- Unlinking all of a contract's tag links empties its tag-name list and
preserves well-formedness. -/
theorem contractTagNames_unlink (cid : Nat) (db : DB) :
    contractTagNames { db with tagLinks := db.tagLinks.filter (fun l =>
        !(l.contract_id == cid)) } cid = [] ∧
    (tagsWF db → tagsWF { db with tagLinks := db.tagLinks.filter (fun l =>
        !(l.contract_id == cid)) }) := by
  constructor
  · unfold contractTagNames
    rw [show ({ db with tagLinks := db.tagLinks.filter (fun l =>
        !(l.contract_id == cid)) } : DB).tagLinks
      = db.tagLinks.filter (fun l => !(l.contract_id == cid)) from rfl]
    rw [List.filter_filter]
    rw [show (fun l : ContractTagLink =>
        (l.contract_id == cid) && !(l.contract_id == cid)) = fun _ => false by
      funext l
      cases h : l.contract_id == cid <;> simp [h]]
    simp
  · intro hwf
    refine ⟨hwf.1, hwf.2.1, ?_⟩
    intro l hl
    exact hwf.2.2 l (List.mem_of_mem_filter hl)

/-- Replace-set semantics: after `replaceContractTags` the contract's
tag-name list is exactly the requested list, well-formedness is preserved,
and no other table is touched. -/
theorem contractTagNames_replace (cid : Nat) (names : List String) (db : DB)
    (hwf : tagsWF db) :
    contractTagNames (replaceContractTags cid names db) cid = names ∧
    tagsWF (replaceContractTags cid names db) ∧
    (replaceContractTags cid names db).users = db.users ∧
    (replaceContractTags cid names db).contracts = db.contracts ∧
    (replaceContractTags cid names db).listLinks = db.listLinks ∧
    (replaceContractTags cid names db).permissions = db.permissions ∧
    (replaceContractTags cid names db).auditLogs = db.auditLogs ∧
    (replaceContractTags cid names db).nextAuditId = db.nextAuditId ∧
    (replaceContractTags cid names db).nextContractId = db.nextContractId := by
  have hu := contractTagNames_unlink cid db
  have h := contractTagNames_addTagsLoop cid names
    { db with tagLinks := db.tagLinks.filter (fun l =>
        !(l.contract_id == cid)) } (hu.2 hwf)
  have hp := addTagsLoop_preserves cid names
    { db with tagLinks := db.tagLinks.filter (fun l =>
        !(l.contract_id == cid)) }
  refine ⟨?_, h.2, hp.1, hp.2.1, hp.2.2.1, hp.2.2.2.1, hp.2.2.2.2.1,
    hp.2.2.2.2.2.1, hp.2.2.2.2.2.2⟩
  show contractTagNames (addTagsLoop cid names _) cid = names
  rw [h.1, hu.1]
  rfl

/-! ### C6 commit characterization -/

theorem optNote_nil_iff {α : Type} (o : Option α) (cond : α → Bool)
    (note : α → String) :
    ((match o with
      | some x => if cond x then [note x] else []
      | none => ([] : List String)) = []) ↔
      ((match o with | some x => cond x | none => false) = false) := by
  cases o with
  | none => simp
  | some x => cases h : cond x <;> simp [h]

/-- The change-note list is empty exactly when no supplied field differs. -/
theorem updateChangeNotes_nil_iff (form : ContractUpdateForm)
    (file : Option FileUpload) (c : Contract) (db : DB) (cid : Nat) :
    (updateChangeNotes form file c db cid = []) ↔
      updateFormDiffers form file c db cid = false := by
  unfold updateChangeNotes updateFormDiffers
  rw [fieldSteps_notes]
  simp only [List.append_eq_nil, Bool.or_eq_false_iff]
  constructor
  · rintro ⟨⟨⟨⟨⟨⟨⟨a1, a2⟩, a3⟩, a4⟩, a5⟩, a6⟩, a7⟩, a8⟩
    refine ⟨⟨⟨⟨⟨⟨⟨?_, ?_⟩, ?_⟩, ?_⟩, ?_⟩, ?_⟩, ?_⟩, ?_⟩
    · rcases hft : form.title with _ | t
      · simp [hft]
      · simp only [hft] at a1 ⊢
        cases hbb : (c.title != t) <;> simp_all
    · rcases hft : form.description with _ | d
      · simp [hft]
      · simp only [hft] at a2 ⊢
        cases hbb : (c.description != some d) <;> simp_all
    · rcases hft : form.start_date with _ | sd
      · simp [hft]
      · simp only [hft] at a3 ⊢
        cases hbb : (c.start_date.day != sd.day) <;> simp_all
    · rcases hft : form.end_date with _ | ed
      · simp [hft]
      · simp only [hft] at a4 ⊢
        cases hbb : (c.end_date.day != ed.day) <;> simp_all
    · rcases hft : form.value with _ | v
      · simp [hft]
      · simp only [hft] at a5 ⊢
        cases hbb : (c.value != v) <;> simp_all
    · rcases hft : form.notice_period with _ | np
      · simp [hft]
      · simp only [hft] at a6 ⊢
        cases hbb : (c.notice_period != np) <;> simp_all
    · cases file <;> simp_all
    · rcases hft : form.tags with _ | ts
      · simp [hft]
      · simp only [hft] at a8 ⊢
        cases hbb : (!listSetEq (contractTagNames db cid) (splitTags ts)) <;>
          simp_all
  · rintro ⟨⟨⟨⟨⟨⟨⟨a1, a2⟩, a3⟩, a4⟩, a5⟩, a6⟩, a7⟩, a8⟩
    refine ⟨⟨⟨⟨⟨⟨⟨?_, ?_⟩, ?_⟩, ?_⟩, ?_⟩, ?_⟩, ?_⟩, ?_⟩
    · rcases hft : form.title with _ | t
      · simp [hft]
      · simp only [hft] at a1 ⊢
        simp [a1]
    · rcases hft : form.description with _ | d
      · simp [hft]
      · simp only [hft] at a2 ⊢
        simp [a2]
    · rcases hft : form.start_date with _ | sd
      · simp [hft]
      · simp only [hft] at a3 ⊢
        simp [a3]
    · rcases hft : form.end_date with _ | ed
      · simp [hft]
      · simp only [hft] at a4 ⊢
        simp [a4]
    · rcases hft : form.value with _ | v
      · simp [hft]
      · simp only [hft] at a5 ⊢
        simp [a5]
    · rcases hft : form.notice_period with _ | np
      · simp [hft]
      · simp only [hft] at a6 ⊢
        simp [a6]
    · cases file <;> simp_all
    · rcases hft : form.tags with _ | ts
      · simp [hft]
      · simp only [hft] at a8 ⊢
        simp [a8]

/-- The tag step of an update only touches the tag table, tag links and tag
counter. -/
theorem tagDB_preserves (form : ContractUpdateForm) (db : DB) (cid : Nat) :
    (tagDB form db cid).users = db.users ∧
    (tagDB form db cid).contracts = db.contracts ∧
    (tagDB form db cid).listLinks = db.listLinks ∧
    (tagDB form db cid).permissions = db.permissions ∧
    (tagDB form db cid).auditLogs = db.auditLogs ∧
    (tagDB form db cid).nextAuditId = db.nextAuditId := by
  unfold tagDB
  rcases hts : form.tags with _ | ts
  · simp [hts]
  · simp only [hts]
    by_cases h : (!listSetEq (contractTagNames db cid) (splitTags ts)) = true
    · rw [if_pos h]
      have hp := addTagsLoop_preserves cid (splitTags ts)
        { db with tagLinks := db.tagLinks.filter (fun l =>
            !(l.contract_id == cid)) }
      unfold replaceContractTags
      exact ⟨hp.1, hp.2.1, hp.2.2.1, hp.2.2.2.1, hp.2.2.2.2.1,
        hp.2.2.2.2.2.1⟩
    · rw [if_neg h]
      exact ⟨rfl, rfl, rfl, rfl, rfl, rfl⟩

/-- Characterization of the commit phase: a no-op when no change note was
produced, otherwise the tag step, the row replacement and one audit entry. -/
theorem update_contract_commit_eq (cid : Nat) (form : ContractUpdateForm)
    (file : Option FileUpload) (uuid : String) (user : User)
    (ip ua : Option String) (now : Nat) (db : DB) (c : Contract) :
    update_contract_commit cid form file uuid user ip ua now db c =
      if (updateChangeNotes form file c db cid).isEmpty then db
      else
        log_audit
          { tagDB form db cid with
            contracts := updateFirstWhere (fun x => x.id == cid)
              (fun _ => finalContract form file uuid c)
              (tagDB form db cid).contracts }
          (some user.id) "UPDATE_CONTRACT"
          ("[CID:" ++ toString cid ++ "] Updated Contract. Changes: "
            ++ String.intercalate "; " (updateChangeNotes form file c db cid))
          ip ua now := by
  unfold update_contract_commit updateChangeNotes tagDB finalContract
  cases file with
  | none =>
    cases hts : form.tags with
    | none => simp [List.append_assoc]
    | some ts =>
      by_cases hset : (!listSetEq (contractTagNames db cid)
          (splitTags ts)) = true
      · simp [hset, List.append_assoc]
      · have hset' : (!listSetEq (contractTagNames db cid)
            (splitTags ts)) = false := by
          revert hset
          cases (!listSetEq (contractTagNames db cid) (splitTags ts)) <;>
            simp
        simp [hset', List.append_assoc]
  | some f =>
    cases hts : form.tags with
    | none => simp [List.append_assoc]
    | some ts =>
      by_cases hset : (!listSetEq (contractTagNames db cid)
          (splitTags ts)) = true
      · simp [hset, List.append_assoc]
      · have hset' : (!listSetEq (contractTagNames db cid)
            (splitTags ts)) = false := by
          revert hset
          cases (!listSetEq (contractTagNames db cid) (splitTags ts)) <;>
            simp
        simp [hset', List.append_assoc]

/-- A found contract with write permission and a valid (or absent)
replacement file reaches the commit phase. -/
theorem update_contract_ok_of (cid : Nat) (form : ContractUpdateForm)
    (file : Option FileUpload) (uuid : String) (user : User)
    (ip ua : Option String) (now : Nat) (db : DB) (c : Contract)
    (hfind : db.contracts.find? (fun x => x.id == cid) = some c)
    (hperm : check_contract_permission user cid "write" db.permissions
      = true)
    (hfile : match file with
      | some f => f.size ≤ 10 * 1024 * 1024 ∧
          (["application/pdf", "image/png", "image/jpeg",
            "text/plain"].contains f.mimeType) = true
      | none => True) :
    update_contract cid form file uuid user ip ua now db
      = .ok (update_contract_commit cid form file uuid user ip ua now db c)
    := by
  unfold update_contract
  rw [hfind]
  have hnp : (!check_contract_permission user cid "write" db.permissions)
      = false := by
    rw [hperm]
    rfl
  simp only [hnp, Bool.false_eq_true, if_false]
  cases file with
  | none => rfl
  | some f =>
    obtain ⟨hsz, hmi⟩ := hfile
    have hgt : (f.size > 10 * 1024 * 1024) = False := by
      simp only [eq_iff_iff, iff_false]
      omega
    have hmi' : (!(["application/pdf", "image/png", "image/jpeg",
        "text/plain"].contains f.mimeType)) = false := by
      rw [hmi]
      rfl
    simp only [hgt, hmi', Bool.false_eq_true, if_false]

/-! ### C6 -/

/-- C6: for an existing contract and an authorized update, (1) when no
supplied field differs from the stored value (dates by calendar date, tags by
set equality, a supplied file always differing) the store is returned
untouched — zero writes and zero audit entries; (2) the audit table grows by
exactly one `UPDATE_CONTRACT` entry when some supplied field differs, and by
none otherwise, the entry's detail carrying the `field: old -> new` notes
joined by `; ` behind the contract-id marker; (3) re-applying the same
field update to the result is a no-op — the second application detects no
diff, so applying the same update twice yields one audit entry, not two. -/
theorem C6_update_contract_diff_audit (cid : Nat) (form : ContractUpdateForm)
    (file : Option FileUpload) (uuid : String) (user : User)
    (ip ua : Option String) (now : Nat) (db : DB) (c : Contract)
    (hfind : db.contracts.find? (fun x => x.id == cid) = some c)
    (hperm : check_contract_permission user cid "write" db.permissions
      = true)
    (hfile : match file with
      | some f => f.size ≤ 10 * 1024 * 1024 ∧
          (["application/pdf", "image/png", "image/jpeg",
            "text/plain"].contains f.mimeType) = true
      | none => True)
    (hwf : tagsWF db) :
    (updateFormDiffers form file c db cid = false →
      update_contract cid form file uuid user ip ua now db = .ok db) ∧
    (∀ db', update_contract cid form file uuid user ip ua now db = .ok db' →
      db'.auditLogs = db.auditLogs ++
        (if updateFormDiffers form file c db cid then
          [⟨db.nextAuditId, some user.id, "UPDATE_CONTRACT",
            "[CID:" ++ toString cid ++ "] Updated Contract. Changes: "
              ++ String.intercalate "; "
                (updateChangeNotes form file c db cid), now, ip, ua⟩]
        else [])) ∧
    (∀ db', update_contract cid form none uuid user ip ua now db = .ok db' →
      update_contract cid form none uuid user ip ua now db' = .ok db') := by
  have hok := update_contract_ok_of cid form file uuid user ip ua now db c
    hfind hperm hfile
  have hokN := update_contract_ok_of cid form none uuid user ip ua now db c
    hfind hperm trivial
  have hpres := tagDB_preserves form db cid
  refine ⟨?_, ?_, ?_⟩
  · intro hdif
    have hnil : updateChangeNotes form file c db cid = [] :=
      (updateChangeNotes_nil_iff form file c db cid).mpr hdif
    rw [hok, update_contract_commit_eq, hnil]
    rfl
  · intro db' h
    rw [hok] at h
    injection h with h
    subst h
    rw [update_contract_commit_eq]
    by_cases hdif : updateFormDiffers form file c db cid = true
    · have hnn : updateChangeNotes form file c db cid ≠ [] := by
        intro hcon
        rw [(updateChangeNotes_nil_iff form file c db cid).mp hcon] at hdif
        cases hdif
      have hne : (updateChangeNotes form file c db cid).isEmpty = false := by
        cases hh : updateChangeNotes form file c db cid
        · exact absurd hh hnn
        · rfl
      rw [hne]
      simp only [Bool.false_eq_true, if_false, hdif, if_true]
      simp only [log_audit]
      rw [show ({ tagDB form db cid with
          contracts := updateFirstWhere (fun x => x.id == cid)
            (fun _ => finalContract form file uuid c)
            (tagDB form db cid).contracts } : DB).auditLogs
        = (tagDB form db cid).auditLogs from rfl]
      rw [show ({ tagDB form db cid with
          contracts := updateFirstWhere (fun x => x.id == cid)
            (fun _ => finalContract form file uuid c)
            (tagDB form db cid).contracts } : DB).nextAuditId
        = (tagDB form db cid).nextAuditId from rfl]
      rw [hpres.2.2.2.2.1, hpres.2.2.2.2.2]
    · have hdif' : updateFormDiffers form file c db cid = false := by
        revert hdif
        cases updateFormDiffers form file c db cid <;> simp
      have hnil := (updateChangeNotes_nil_iff form file c db cid).mpr hdif'
      rw [hnil]
      simp [hdif']
  · intro db' h
    rw [hokN] at h
    injection h with h
    subst h
    by_cases hdif0 : updateFormDiffers form none c db cid = true
    · have hnn : updateChangeNotes form none c db cid ≠ [] := by
        intro hcon
        rw [(updateChangeNotes_nil_iff form none c db cid).mp hcon] at hdif0
        cases hdif0
      have hne : (updateChangeNotes form none c db cid).isEmpty = false := by
        cases hh : updateChangeNotes form none c db cid
        · exact absurd hh hnn
        · rfl
      have hcommit : update_contract_commit cid form none uuid user ip ua
          now db c
          = log_audit
            { tagDB form db cid with
              contracts := updateFirstWhere (fun x => x.id == cid)
                (fun _ => finalContract form none uuid c)
                (tagDB form db cid).contracts }
            (some user.id) "UPDATE_CONTRACT"
            ("[CID:" ++ toString cid ++ "] Updated Contract. Changes: "
              ++ String.intercalate "; "
                (updateChangeNotes form none c db cid))
            ip ua now := by
        rw [update_contract_commit_eq, hne]
        rfl
      rw [hcommit]
      obtain ⟨ff1, ff2, ff3, ff4, ff5, ff6, ff7, ff8⟩ :=
        fieldSteps_fields c form
      have hcidc : (c.id == cid) = true := by
        have := List.find?_some hfind
        simpa using this
      have hfind2 : (log_audit
          { tagDB form db cid with
            contracts := updateFirstWhere (fun x => x.id == cid)
              (fun _ => finalContract form none uuid c)
              (tagDB form db cid).contracts }
          (some user.id) "UPDATE_CONTRACT"
          ("[CID:" ++ toString cid ++ "] Updated Contract. Changes: "
            ++ String.intercalate "; "
              (updateChangeNotes form none c db cid))
          ip ua now).contracts.find? (fun x => x.id == cid)
          = some (finalContract form none uuid c) := by
        rw [show (log_audit
            { tagDB form db cid with
              contracts := updateFirstWhere (fun x => x.id == cid)
                (fun _ => finalContract form none uuid c)
                (tagDB form db cid).contracts }
            (some user.id) "UPDATE_CONTRACT"
            ("[CID:" ++ toString cid ++ "] Updated Contract. Changes: "
              ++ String.intercalate "; "
                (updateChangeNotes form none c db cid))
            ip ua now).contracts
          = updateFirstWhere (fun x => x.id == cid)
              (fun _ => finalContract form none uuid c)
              (tagDB form db cid).contracts from rfl]
        rw [hpres.2.1]
        apply find?_updateFirstWhere _ _ _ c hfind
        show ((finalContract form none uuid c).id == cid) = true
        have : (finalContract form none uuid c).id = c.id := ff7
        rw [this]
        exact hcidc
      have hperm2 : check_contract_permission user cid "write"
          (log_audit
            { tagDB form db cid with
              contracts := updateFirstWhere (fun x => x.id == cid)
                (fun _ => finalContract form none uuid c)
                (tagDB form db cid).contracts }
            (some user.id) "UPDATE_CONTRACT"
            ("[CID:" ++ toString cid ++ "] Updated Contract. Changes: "
              ++ String.intercalate "; "
                (updateChangeNotes form none c db cid))
            ip ua now).permissions = true := by
        rw [show (log_audit
            { tagDB form db cid with
              contracts := updateFirstWhere (fun x => x.id == cid)
                (fun _ => finalContract form none uuid c)
                (tagDB form db cid).contracts }
            (some user.id) "UPDATE_CONTRACT"
            ("[CID:" ++ toString cid ++ "] Updated Contract. Changes: "
              ++ String.intercalate "; "
                (updateChangeNotes form none c db cid))
            ip ua now).permissions = (tagDB form db cid).permissions
          from rfl]
        rw [hpres.2.2.2.1]
        exact hperm
      have hok2 := update_contract_ok_of cid form none uuid user ip ua now
        (log_audit
          { tagDB form db cid with
            contracts := updateFirstWhere (fun x => x.id == cid)
              (fun _ => finalContract form none uuid c)
              (tagDB form db cid).contracts }
          (some user.id) "UPDATE_CONTRACT"
          ("[CID:" ++ toString cid ++ "] Updated Contract. Changes: "
            ++ String.intercalate "; "
              (updateChangeNotes form none c db cid))
          ip ua now)
        (finalContract form none uuid c) hfind2 hperm2 trivial
      rw [hok2]
      have hdif2 : updateFormDiffers form none
          (finalContract form none uuid c)
          (log_audit
            { tagDB form db cid with
              contracts := updateFirstWhere (fun x => x.id == cid)
                (fun _ => finalContract form none uuid c)
                (tagDB form db cid).contracts }
            (some user.id) "UPDATE_CONTRACT"
            ("[CID:" ++ toString cid ++ "] Updated Contract. Changes: "
              ++ String.intercalate "; "
                (updateChangeNotes form none c db cid))
            ip ua now) cid = false := by
        unfold updateFormDiffers
        simp only [Bool.or_eq_false_iff]
        refine ⟨⟨⟨⟨⟨⟨⟨?_, ?_⟩, ?_⟩, ?_⟩, ?_⟩, ?_⟩, by rfl⟩, ?_⟩
        · rcases hft : form.title with _ | t
          · simp [hft]
          · simp only [hft]
            rw [hft] at ff1
            have : (finalContract form none uuid c).title = t := ff1
            rw [this]
            simp
        · rcases hft : form.description with _ | d
          · simp [hft]
          · simp only [hft]
            rw [hft] at ff2
            have : (finalContract form none uuid c).description = some d :=
              ff2
            rw [this]
            simp
        · rcases hft : form.start_date with _ | sd
          · simp [hft]
          · simp only [hft]
            rw [hft] at ff3
            have : (finalContract form none uuid c).start_date.day = sd.day :=
              ff3
            rw [this]
            simp
        · rcases hft : form.end_date with _ | ed
          · simp [hft]
          · simp only [hft]
            rw [hft] at ff4
            have : (finalContract form none uuid c).end_date.day = ed.day :=
              ff4
            rw [this]
            simp
        · rcases hft : form.value with _ | v
          · simp [hft]
          · simp only [hft]
            rw [hft] at ff5
            have : (finalContract form none uuid c).value = v := ff5
            rw [this]
            simp
        · rcases hft : form.notice_period with _ | np
          · simp [hft]
          · simp only [hft]
            rw [hft] at ff6
            have : (finalContract form none uuid c).notice_period = np := ff6
            rw [this]
            simp
        · rcases hft : form.tags with _ | ts
          · simp [hft]
          · simp only [hft]
            have hnames : contractTagNames
                (log_audit
                  { tagDB form db cid with
                    contracts := updateFirstWhere (fun x => x.id == cid)
                      (fun _ => finalContract form none uuid c)
                      (tagDB form db cid).contracts }
                  (some user.id) "UPDATE_CONTRACT"
                  ("[CID:" ++ toString cid ++ "] Updated Contract. Changes: "
                    ++ String.intercalate "; "
                      (updateChangeNotes form none c db cid))
                  ip ua now) cid
                = contractTagNames (tagDB form db cid) cid := rfl
            rw [hnames]
            unfold tagDB
            simp only [hft]
            by_cases hset : (!listSetEq (contractTagNames db cid)
                (splitTags ts)) = true
            · rw [if_pos hset]
              rw [(contractTagNames_replace cid (splitTags ts) db hwf).1]
              rw [listSetEq_self]
              rfl
            · rw [if_neg hset]
              revert hset
              cases (!listSetEq (contractTagNames db cid) (splitTags ts)) <;>
                simp
      have hnil2 := (updateChangeNotes_nil_iff form none
        (finalContract form none uuid c)
        (log_audit
          { tagDB form db cid with
            contracts := updateFirstWhere (fun x => x.id == cid)
              (fun _ => finalContract form none uuid c)
              (tagDB form db cid).contracts }
          (some user.id) "UPDATE_CONTRACT"
          ("[CID:" ++ toString cid ++ "] Updated Contract. Changes: "
            ++ String.intercalate "; "
              (updateChangeNotes form none c db cid))
          ip ua now) cid).mpr hdif2
      rw [update_contract_commit_eq, hnil2]
      rfl
    · have hdif0' : updateFormDiffers form none c db cid = false := by
        revert hdif0
        cases updateFormDiffers form none c db cid <;> simp
      have hnil := (updateChangeNotes_nil_iff form none c db cid).mpr hdif0'
      have hdb : update_contract_commit cid form none uuid user ip ua now db c
          = db := by
        rw [update_contract_commit_eq, hnil]
        rfl
      rw [hdb, hokN, hdb]

/-- Witness for C6: updating contract 7's value from 1200 to 1500 over
`wDBAudit` records exactly one `UPDATE_CONTRACT` entry, and re-applying the
same update leaves the store unchanged. -/
theorem C6_update_contract_diff_audit_witness :
    update_contract 7 wC6form none "u" wAdmin none none 11 wDBAudit
      = .ok wDB6 ∧
    wDB6.auditLogs = wDBAudit.auditLogs ++
      (if updateFormDiffers wC6form none wLease wDBAudit 7 then
        [⟨wDBAudit.nextAuditId, some wAdmin.id, "UPDATE_CONTRACT",
          "[CID:" ++ toString 7 ++ "] Updated Contract. Changes: "
            ++ String.intercalate "; "
              (updateChangeNotes wC6form none wLease wDBAudit 7), 11, none,
          none⟩]
      else []) ∧
    update_contract 7 wC6form none "u" wAdmin none none 11 wDB6
      = .ok wDB6 := by
  have h := C6_update_contract_diff_audit 7 wC6form none "u" wAdmin none
    none 11 wDBAudit wLease (by rfl) (by decide) trivial (by decide)
  exact ⟨by rfl, h.2.1 wDB6 (by rfl), h.2.2 wDB6 (by rfl)⟩

/-! ### C2 (create and update) -/

/-- `log_audit` appends exactly one audit row. -/
theorem log_audit_auditLogs_length (db : DB) (uid : Option Nat)
    (act det : String) (ip ua : Option String) (now : Nat) :
    (log_audit db uid act det ip ua now).auditLogs.length
      = db.auditLogs.length + 1 := by
  simp [log_audit]

/-- `log_audit` leaves the contract table unchanged. -/
theorem log_audit_contracts_eq (db : DB) (uid : Option Nat) (act det : String)
    (ip ua : Option String) (now : Nat) :
    (log_audit db uid act det ip ua now).contracts = db.contracts := rfl

/-- A per-new-tag commit snapshot never touches the audit or contract
tables. -/
theorem updateTagCommitSnapshots_keep (cid : Nat) (names : List String)
    (db : DB) :
    ∀ s ∈ updateTagCommitSnapshots cid names db,
      s.auditLogs = db.auditLogs ∧ s.contracts = db.contracts := by
  induction names generalizing db with
  | nil =>
    intro s hs
    simp [updateTagCommitSnapshots] at hs
  | cons nm rest ih =>
    intro s hs
    cases hf : db.tags.find? (fun t => t.name == nm) with
    | some t =>
      simp only [updateTagCommitSnapshots, hf] at hs
      have hkeep := ih _ s hs
      exact hkeep
    | none =>
      simp only [updateTagCommitSnapshots, hf] at hs
      rcases List.mem_cons.mp hs with rfl | hs2
      · exact ⟨rfl, rfl⟩
      · have hkeep := ih _ s hs2
        exact hkeep

/-- C2 amended: within a lifecycle create or update, the store mutation and
its audit entry are committed by two separate transactions, the audit commit
strictly last.  For a successful create: at least one commit happens, any
reachable crash state whose audit table has grown already contains the new
contract row (no audit entry without its mutation), and the completed run
ends with the contract row and exactly one new audit entry.  For an
authorized update of a found contract: the handler's result is the last of
the per-commit states (per-new-tag commits at `main.py` line 541, mutation
commit at line 547, audit commit in `log_audit`), any reachable crash state
whose audit table has grown already holds the mutated contract row, and a run
with an effective change ends with exactly one new audit entry.  (Delete
records no audit entry at all — settled separately as a code bug — and the
single-transaction reading of the original claim is refuted by the crash
state between the mutation and audit commits.) -/
theorem C2_lifecycle_audit_two_transactions :
    (∀ (title : String) (sd ed : PyDateTime) (value : Rat) (np : Int)
        (file : FileUpload) (desc : Option String) (tags uuid : String)
        (user : User) (ip ua : Option String) (now : Nat) (db : DB)
        (states : List DB),
      create_contract title sd ed value np file desc tags uuid user ip ua
          now db = .ok states →
        states ≠ [] ∧
        (∀ s ∈ crashStates db states,
          s.auditLogs.length ≠ db.auditLogs.length →
            s.contracts.any (fun c => c.id == db.nextContractId) = true) ∧
        (states.getLastD db).contracts.any
          (fun c => c.id == db.nextContractId) = true ∧
        (states.getLastD db).auditLogs.length = db.auditLogs.length + 1) ∧
    (∀ (cid : Nat) (form : ContractUpdateForm) (file : Option FileUpload)
        (uuid : String) (user : User) (ip ua : Option String) (now : Nat)
        (db : DB) (c : Contract),
      db.contracts.find? (fun x => x.id == cid) = some c →
      check_contract_permission user cid "write" db.permissions = true →
      (match file with
        | some f => f.size ≤ 10 * 1024 * 1024 ∧
            (["application/pdf", "image/png", "image/jpeg",
              "text/plain"].contains f.mimeType) = true
        | none => True) →
        update_contract cid form file uuid user ip ua now db
          = .ok ((update_contract_commitStates cid form file uuid user ip ua
              now db c).getLastD db) ∧
        (∀ s ∈ crashStates db
            (update_contract_commitStates cid form file uuid user ip ua now
              db c),
          s.auditLogs.length ≠ db.auditLogs.length →
            s.contracts.find? (fun x => x.id == cid)
              = some (finalContract form file uuid c)) ∧
        (updateFormDiffers form file c db cid = true →
          ((update_contract_commitStates cid form file uuid user ip ua now
              db c).getLastD db).auditLogs.length
            = db.auditLogs.length + 1)) := by
  constructor
  · intro title sd ed value np file desc tags uuid user ip ua now db states
      hok
    unfold create_contract at hok
    split at hok
    · cases hok
    next h1 =>
      split at hok
      · cases hok
      next h2 =>
        split at hok
        · cases hok
        next h3 =>
          injection hok with hok
          subst hok
          have hspec := createTagsLoop_spec (splitTags tags) db
          refine ⟨by simp, ?_, ?_, ?_⟩
          · intro s hs hne
            rcases List.mem_cons.mp hs with rfl | hs2
            · exact absurd rfl hne
            rcases List.mem_append.mp hs2 with hmid | hend
            · exact absurd (congrArg List.length
                (hspec.2.2.2 s hmid).1) hne
            rcases List.mem_cons.mp hend with rfl | hend2
            · exact absurd (congrArg List.length hspec.1) hne
            rcases List.mem_cons.mp hend2 with rfl | habs
            · simp only [log_audit, List.any_append]
              have hcid := hspec.2.2.1
              simp [hcid]
            · cases habs
          · rw [getLastD_append_two]
            simp only [log_audit, List.any_append]
            have hcid := hspec.2.2.1
            simp [hcid]
          · rw [getLastD_append_two]
            simp only [log_audit, List.length_append]
            rw [congrArg List.length hspec.1]
            rfl
  · intro cid form file uuid user ip ua now db c hfind hperm hfile
    have hok := update_contract_ok_of cid form file uuid user ip ua now db c
      hfind hperm hfile
    have hpres := tagDB_preserves form db cid
    have hc2id : ((finalContract form file uuid c).id == cid) = true := by
      have hid : (finalContract form file uuid c).id = c.id := by
        have h7 := (fieldSteps_fields c form).2.2.2.2.2.2.1
        unfold finalContract
        cases file
        · exact h7
        · exact h7
      rw [hid]
      simpa using List.find?_some hfind
    by_cases hemp : updateChangeNotes form file c db cid = []
    · have hstates : update_contract_commitStates cid form file uuid user
          ip ua now db c = [] := by
        unfold update_contract_commitStates
        rw [hemp]
        rfl
      rw [hstates]
      refine ⟨?_, ?_, ?_⟩
      · rw [hok, update_contract_commit_eq, hemp]
        rfl
      · intro s hs hne2
        simp only [crashStates] at hs
        rcases List.mem_cons.mp hs with rfl | h2
        · exact absurd rfl hne2
        · cases h2
      · intro hdif
        rw [(updateChangeNotes_nil_iff form file c db cid).mp hemp] at hdif
        cases hdif
    · have hne : (updateChangeNotes form file c db cid).isEmpty = false := by
        cases hh : updateChangeNotes form file c db cid
        · exact absurd hh hemp
        · rfl
      refine ⟨?_, ?_, ?_⟩
      · rw [hok, update_contract_commit_eq]
        unfold update_contract_commitStates
        rw [hne]
        simp only [Bool.false_eq_true, if_false]
        rw [getLastD_append_two]
        rfl
      · intro s hs hne2
        unfold update_contract_commitStates at hs
        rw [hne] at hs
        simp only [Bool.false_eq_true, if_false, crashStates] at hs
        rcases List.mem_cons.mp hs with rfl | hs2
        · exact absurd rfl hne2
        rcases List.mem_append.mp hs2 with hsnap | hend
        · rcases hts : form.tags with _ | ts
          · simp only [hts] at hsnap
            exact absurd hsnap (List.not_mem_nil s)
          · simp only [hts] at hsnap
            by_cases hset : (!listSetEq (contractTagNames db cid)
                (splitTags ts)) = true
            · rw [if_pos hset] at hsnap
              have hkeep := (updateTagCommitSnapshots_keep cid
                (splitTags ts) _ s hsnap).2
              rw [hkeep]
              show (updateFirstWhere (fun x => x.id == cid)
                (fun _ => finalContract form file uuid c)
                db.contracts).find? (fun x => x.id == cid)
                  = some (finalContract form file uuid c)
              exact find?_updateFirstWhere (fun x => x.id == cid)
                (fun _ => finalContract form file uuid c) db.contracts c
                hfind hc2id
            · rw [if_neg hset] at hsnap
              exact absurd hsnap (List.not_mem_nil s)
        rcases List.mem_cons.mp hend with rfl | hend2
        · show (updateFirstWhere (fun x => x.id == cid)
            (fun _ => finalContract form file uuid c)
            (tagDB form db cid).contracts).find? (fun x => x.id == cid)
              = some (finalContract form file uuid c)
          rw [hpres.2.1]
          exact find?_updateFirstWhere (fun x => x.id == cid)
            (fun _ => finalContract form file uuid c) db.contracts c hfind
            hc2id
        rcases List.mem_cons.mp hend2 with rfl | habs
        · rw [log_audit_contracts_eq]
          show (updateFirstWhere (fun x => x.id == cid)
            (fun _ => finalContract form file uuid c)
            (tagDB form db cid).contracts).find? (fun x => x.id == cid)
              = some (finalContract form file uuid c)
          rw [hpres.2.1]
          exact find?_updateFirstWhere (fun x => x.id == cid)
            (fun _ => finalContract form file uuid c) db.contracts c hfind
            hc2id
        · cases habs
      · intro _
        unfold update_contract_commitStates
        rw [hne]
        simp only [Bool.false_eq_true, if_false]
        rw [getLastD_append_two, log_audit_auditLogs_length]
        have hma : (updateMutationState cid form file uuid c db).auditLogs
            = db.auditLogs := by
          show (tagDB form db cid).auditLogs = db.auditLogs
          exact hpres.2.2.2.2.1
        rw [hma]

/-- Witness for C2 amended, at concrete runs of both lifecycle operations:
the "Lease B" upload over `wDB` commits the mutation state `wDB2mid` and then
the audited state `wDB2fin`; the value-1500 update of contract 7 over
`wDBAudit` commits its mutation state and then the audited state. -/
theorem C2_lifecycle_audit_two_transactions_witness :
    (([wDB2mid, wDB2fin] : List DB) ≠ [] ∧
      (∀ s ∈ crashStates wDB [wDB2mid, wDB2fin],
        s.auditLogs.length ≠ wDB.auditLogs.length →
          s.contracts.any (fun c => c.id == wDB.nextContractId) = true) ∧
      ([wDB2mid, wDB2fin].getLastD wDB).contracts.any
        (fun c => c.id == wDB.nextContractId) = true ∧
      ([wDB2mid, wDB2fin].getLastD wDB).auditLogs.length
        = wDB.auditLogs.length + 1) ∧
    (update_contract 7 wC6form none "u" wAdmin none none 11 wDBAudit
        = .ok ((update_contract_commitStates 7 wC6form none "u" wAdmin none
            none 11 wDBAudit wLease).getLastD wDBAudit) ∧
      (∀ s ∈ crashStates wDBAudit
          (update_contract_commitStates 7 wC6form none "u" wAdmin none none
            11 wDBAudit wLease),
        s.auditLogs.length ≠ wDBAudit.auditLogs.length →
          s.contracts.find? (fun x => x.id == 7)
            = some (finalContract wC6form none "u" wLease)) ∧
      (updateFormDiffers wC6form none wLease wDBAudit 7 = true →
        ((update_contract_commitStates 7 wC6form none "u" wAdmin none none
            11 wDBAudit wLease).getLastD wDBAudit).auditLogs.length
          = wDBAudit.auditLogs.length + 1)) :=
  ⟨C2_lifecycle_audit_two_transactions.1 "Lease B" ⟨100, 0⟩ ⟨465, 0⟩ 1200 30
      wFile none "" "u2" wBob none none 3 wDB [wDB2mid, wDB2fin] (by rfl),
    C2_lifecycle_audit_two_transactions.2 7 wC6form none "u" wAdmin none none
      11 wDBAudit wLease (by rfl) (by decide) trivial⟩

end ZED
